import Mathlib

/-!
A shallow embedding of the discovery pipeline of ndscan.

The Go sources embedded here are `internal/scan/nmap.go`, `internal/scan/parse.go`,
`internal/scan/runner.go`, `internal/ui/print.go`, `internal/vendor/oui.go` and the
command wiring of `cmd/ndscan/main.go`.

Modelling conventions.

* A Go `string` is a Lean `String`, read as valid UTF-8 text.  Go compares strings byte by
  byte; on valid UTF-8 that is the lexicographic order of the code points, which is what
  `strLess` computes.  The one place where a byte offset can fall inside a character
  (`s[:6]` in `vendor.norm`) is modelled on the UTF-8 bytes themselves.
* Output captured from the external tool (`[]byte`) is a `String` as well; `len(b) == 0`
  is `b = ""`.
* A Go `error` is an `Option String`: `none` is `nil`, `some msg` carries the message.
* Standard-library and operating-system behaviour that the repository only calls is a
  field of `Env` (`exec.LookPath`, `xml.Unmarshal`, `time.Duration.String`, the non-ASCII
  part of `unicode.ToUpper`, process execution, the vendor file, the JSON file).
* What Go leaves unspecified (map iteration order, the order `sort.Slice` gives to equal
  elements) is a field of `Runtime`, constrained by `Runtime.Lawful`; the interleaving of
  goroutines is an explicit list of scheduler events.
-/

set_option maxRecDepth 100000

namespace Ndscan

/-! ## The `strings` and `unicode` helpers used by the sources -/

/-- Go `unicode.IsSpace`: the Latin-1 spaces and the code points with the White_Space
property. -/
def isSpace (c : Char) : Bool :=
  let n := c.toNat
  (9 ≤ n && n ≤ 13) || n == 32 || n == 0x85 || n == 0xA0 || n == 0x1680 ||
    (0x2000 ≤ n && n ≤ 0x200A) || n == 0x2028 || n == 0x2029 || n == 0x202F ||
    n == 0x205F || n == 0x3000

/-- Does `s` begin with `p`? -/
def startsWith : List Char → List Char → Bool
  | [], _ => true
  | _ :: _, [] => false
  | p :: ps, c :: cs => p == c && startsWith ps cs

/-- Substring test on character lists (`strings.Contains`). -/
def containsChars : List Char → List Char → Bool
  | [], sub => startsWith sub []
  | c :: cs, sub => startsWith sub (c :: cs) || containsChars cs sub

/-- Go `strings.Contains`. -/
def Contains (s sub : String) : Bool := containsChars s.data sub.data

/-- Splitting around every occurrence of a one-character separator: `n` separators give
`n + 1` pieces, and the empty text gives one empty piece. -/
def splitChars (sep : Char) : List Char → List (List Char)
  | [] => [[]]
  | c :: cs =>
    if c = sep then [] :: splitChars sep cs
    else
      match splitChars sep cs with
      | [] => [[c]]
      | l :: ls => (c :: l) :: ls

/-- Go `strings.Split(s, sep)` for a separator of one character. -/
def Split (s : String) (sep : Char) : List String := (splitChars sep s.data).map String.mk

/-- The loop of `strings.Fields`: `cur` is the field being read. -/
def fieldsGo : List Char → List Char → List (List Char)
  | cur, [] => if cur.isEmpty then [] else [cur]
  | cur, c :: cs =>
    if isSpace c then
      if cur.isEmpty then fieldsGo [] cs else cur :: fieldsGo [] cs
    else fieldsGo (cur ++ [c]) cs

/-- Go `strings.Fields`: the maximal runs of non-space characters, in order. -/
def Fields (s : String) : List String := (fieldsGo [] s.data).map String.mk

/-- Go `strings.TrimSpace` on a character list. -/
def trimSpaceChars (s : List Char) : List Char :=
  ((s.dropWhile isSpace).reverse.dropWhile isSpace).reverse

/-- Removal of every non-overlapping occurrence of `old`, scanning from the left
(`strings.ReplaceAll(s, old, "")` for a non-empty `old`).  `skip` counts the characters
of a match that are still to be dropped. -/
def removeAllGo (old : List Char) : Nat → List Char → List Char
  | _, [] => []
  | skip + 1, _ :: cs => removeAllGo old skip cs
  | 0, c :: cs =>
    if startsWith old (c :: cs) then removeAllGo old (old.length - 1) cs
    else c :: removeAllGo old 0 cs

/-- Go `strings.ReplaceAll(s, old, "")`, `old` non-empty. -/
def removeAll (old : String) (s : List Char) : List Char := removeAllGo old.data 0 s

/-- Lexicographic comparison of character lists by code point. -/
def charsLess : List Char → List Char → Bool
  | [], [] => false
  | [], _ :: _ => true
  | _ :: _, [] => false
  | a :: as, b :: bs =>
    if a.toNat < b.toNat then true
    else if b.toNat < a.toNat then false
    else charsLess as bs

/-- Go `<` on strings. -/
def strLess (a b : String) : Bool := charsLess a.data b.data

/-! ## Environment -/

/-- One invocation of an external binary: its name and its arguments. -/
abbrev Call := String × List String

/-- What `Runner.Run` returns: the captured output and the error. -/
structure RunOut where
  out : String
  err : Option String
  deriving DecidableEq, Repr

/-- A value together with the external invocations made while computing it. -/
structure Traced (α : Type) where
  val : α
  calls : List Call

namespace scan

/-- The `Runner` interface of `runner.go`: `Run(ctx, bin, args...)`.  `isLocal` is the
outcome of the type test `runner.(LocalRunner)`. -/
structure Runner where
  isLocal : Bool
  Run : String → List String → RunOut

/-- The `Status` element. -/
structure Status where
  State : String
  deriving DecidableEq, Repr

/-- The `Address` element. -/
structure Address where
  Addr : String
  AddrType : String
  Vendor : String
  deriving DecidableEq, Repr

/-- The `Hostname` element. -/
structure Hostname where
  Name : String
  deriving DecidableEq, Repr

/-- The `Hostnames` element. -/
structure Hostnames where
  Names : List Hostname
  deriving DecidableEq, Repr

/-- The `PortState` element. -/
structure PortState where
  State : String
  deriving DecidableEq, Repr

/-- The `Service` element. -/
structure Service where
  Name : String
  Product : String
  Version : String
  deriving DecidableEq, Repr

/-- The `Port` element. -/
structure Port where
  Protocol : String
  PortID : Int
  State : PortState
  Service : Service
  deriving DecidableEq, Repr

/-- The `Ports` element. -/
structure Ports where
  List : List Port
  deriving DecidableEq, Repr

/-- The `Host` element. -/
structure Host where
  Status : Status
  Addresses : List Address
  Hostnames : Hostnames
  Ports : Ports
  deriving DecidableEq, Repr

/-- The document root decoded by `ParseOne`. -/
structure NmapRun where
  Hosts : List Host
  deriving DecidableEq, Repr

end scan

namespace ui

/-- Struct `Row` of `print.go`. -/
structure Row where
  IP : String
  MAC : String
  Vendor : String
  Host : String
  Up : Bool
  Ports : List String
  deriving DecidableEq, Repr

end ui

/-- The standard-library behaviour the sources rely on. -/
structure Env where
  /-- Does `exec.LookPath("nmap")` succeed? -/
  lookPathNmap : Bool
  /-- The decoder `xml.Unmarshal(bytes, &nr)` at type `NmapRun`. -/
  xmlUnmarshal : String → Except String scan.NmapRun
  /-- The formatter `time.Duration.String`, on a number of nanoseconds. -/
  durationString : Int → String
  /-- The mapping `unicode.ToUpper` on the characters outside ASCII. -/
  unicodeToUpper : Char → Char
  /-- Running a process with `exec.CommandContext(ctx, bin, args...).Run()`: captured
  standard output, captured standard error, and the error of `Run`. -/
  command : String → List String → String × String × Option String
  /-- The content of `~/.ndscan/oui.txt`, when `os.ReadFile` succeeds. -/
  ouiFile : Option String
  /-- Writing rows as JSON: `json.MarshalIndent(rows, "", "  ")` followed by
  `os.WriteFile(path, b, 0644)`; the value is the error of the write. -/
  writeJSON : String → List ui.Row → Option String

namespace scan

/-- Struct `Config` of `nmap.go`. -/
structure Config where
  Preset : String
  Ports : String
  UseSYN : Bool
  Concurrency : Int
  HostTimeout : Int
  DisableVendors : Bool
  NeedMAC : Bool
  deriving DecidableEq, Repr

/-- Struct `HostResult` of `nmap.go`. -/
structure HostResult where
  IP : String
  XMLBytes : String
  Err : Option String
  deriving DecidableEq, Repr

/-- Function `ParseOne` of `parse.go`. -/
def ParseOne (env : Env) (xmlBytes : String) : Except String NmapRun :=
  env.xmlUnmarshal xmlBytes

/-- The body of the parsing loop of `HostDiscovery`, for one line. -/
def liveStep (live : List String) (ln : String) : List String :=
  if Contains ln "Status: Up" then
    let parts := Fields ln
    match parts with
    | p0 :: p1 :: _ => if p0 = "Host:" then live ++ [p1] else live
    | _ => live
  else live

/-- The parsing part of `HostDiscovery`: the loop over the lines of the tool output. -/
def parseLive (out : String) : List String :=
  (Split out '\n').foldl liveStep []

/-- Function `HostDiscovery` of `nmap.go`. -/
def HostDiscovery (env : Env) (targets : List String) (runner : Runner) :
    Traced (Except String (List String)) :=
  if runner.isLocal && !env.lookPathNmap then
    ⟨.error "nmap not found in PATH", []⟩
  else
    let args := ["-sn", "-oG", "-"]
    let args := args ++ targets
    let r := runner.Run "nmap" args
    match r.err with
    | some e => ⟨.error ("host discovery failed: " ++ e), [("nmap", args)]⟩
    | none => ⟨.ok (parseLive r.out), [("nmap", args)]⟩

/-- Function `scanOne` of `nmap.go`: the argument list is built step by step and handed
to the runner. -/
def scanOne (env : Env) (ip : String) (cfg : Config) (runner : Runner) : Traced RunOut :=
  if runner.isLocal && !env.lookPathNmap then
    ⟨⟨"", some "nmap not found"⟩, []⟩
  else
    let args := ["-oX", "-", "-Pn"]
    let args := if cfg.UseSYN then args ++ ["-sS"] else args ++ ["-sT"]
    let args :=
      if cfg.Preset = "quick" then args ++ ["-T4", "-F"]
      else if cfg.Preset = "default" then args ++ ["-T4", "-A"]
      else if cfg.Preset = "udp" then args ++ ["-sU", "-T4"]
      else if cfg.Preset = "deep" then args ++ ["-T4", "-p", "1-65535", "-A"]
      else args ++ ["-T4", "-F"]
    let args := if cfg.Ports ≠ "" then args ++ ["-p", cfg.Ports] else args
    let args :=
      if cfg.HostTimeout > 0 then args ++ ["--host-timeout", env.durationString cfg.HostTimeout]
      else args
    let args := args ++ ["--max-retries", "1", "--min-rate", "200"]
    let args := args ++ [ip]
    ⟨runner.Run "nmap" args, [("nmap", args)]⟩

/-- Function `max` of `nmap.go`. -/
def max (a b : Int) : Int := if a > b then a else b

/-- The state of the worker pool of `ScanHosts`: `next` is the index the `for` loop will
start next, `running` lists the goroutines `(i, host)` that hold a slot of the semaphore
`sem`, `res` is the pre-sized result slice. -/
structure PoolState where
  next : Nat
  running : List (Nat × String)
  res : List HostResult
  deriving DecidableEq, Repr

/-- What the scheduler can let happen: the loop starts the goroutine of the next host
(it needs a free slot of `sem`), or the running goroutine of index `i` runs to its end
(it writes `res[i]`, frees its slot and signals the wait group). -/
inductive Event where
  | start : Event
  | finish : Nat → Event
  deriving DecidableEq, Repr

/-- The zero value of `HostResult`, which fills `make([]HostResult, len(live))`. -/
def HostResult.zero : HostResult := ⟨"", "", none⟩

/-- The capacity of the semaphore channel: `max(1, cfg.Concurrency)`. -/
def semCap (cfg : Config) : Nat := (max 1 cfg.Concurrency).toNat

/-- The pool before the loop starts. -/
def poolInit (live : List String) : PoolState :=
  ⟨0, [], List.replicate live.length HostResult.zero⟩

/-- One scheduler event on the pool; `none` when the event cannot happen in this state. -/
def poolStep (env : Env) (live : List String) (cfg : Config) (runner : Runner)
    (s : PoolState) : Event → Option PoolState
  | .start =>
    match live[s.next]? with
    | some ip =>
      if s.running.length < semCap cfg then
        some { s with next := s.next + 1, running := s.running ++ [(s.next, ip)] }
      else none
    | none => none
  | .finish i =>
    match s.running.lookup i with
    | some host =>
      let r := (scanOne env host cfg runner).val
      some { s with
        running := s.running.filter (fun e => e.1 ≠ i),
        res := s.res.set i ⟨host, r.out, r.err⟩ }
    | none => none

/-- A sequence of scheduler events, from a given pool state. -/
def poolRun (env : Env) (live : List String) (cfg : Config) (runner : Runner) :
    PoolState → List Event → Option PoolState
  | s, [] => some s
  | s, e :: es =>
    match poolStep env live cfg runner s e with
    | some t => poolRun env live cfg runner t es
    | none => none

/-- The loop has started every host and `wg.Wait()` can return. -/
def poolDone (live : List String) (s : PoolState) : Bool :=
  s.next == live.length && s.running.isEmpty

/-- Function `ScanHosts` of `nmap.go` under the interleaving `sched`.  The value is `none`
when `sched` is not a complete execution (an event that cannot happen, or goroutines
left unfinished); otherwise it is the pair the function returns. -/
def ScanHosts (env : Env) (sched : List Event) (live : List String) (cfg : Config)
    (runner : Runner) : Option (List HostResult × Option String) :=
  if live.length = 0 then some ([], none)
  else
    match poolRun env live cfg runner (poolInit live) sched with
    | some s => if poolDone live s then some (s.res, none) else none
    | none => none

/-- The Go map `map[string]string` built by `DiscoverMACs`, as a lookup function. -/
abbrev MACMap := String → Option String

/-- The address loop of `DiscoverMACs` for one host: the last network address and the
last hardware address win. -/
def macPairStep (p : String × String) (a : Address) : String × String :=
  if a.AddrType = "ipv4" ∨ a.AddrType = "ipv6" then (a.Addr, p.2)
  else if a.AddrType = "mac" then (p.1, a.Addr)
  else p

/-- The host loop of `DiscoverMACs`. -/
def macStep (m : MACMap) (h : Host) : MACMap :=
  let p := h.Addresses.foldl macPairStep ("", "")
  if p.1 ≠ "" ∧ p.2 ≠ "" then fun k => if k = p.1 then some p.2 else m k else m

/-- Function `DiscoverMACs` of `nmap.go`. -/
def DiscoverMACs (env : Env) (targets : List String) (runner : Runner) :
    Traced (Except String MACMap) :=
  if runner.isLocal && !env.lookPathNmap then
    ⟨.error "nmap not found in PATH", []⟩
  else
    let args := ["-sn", "-oX", "-"]
    let args := args ++ targets
    let r := runner.Run "nmap" args
    match r.err with
    | some e => ⟨.error ("mac discovery failed: " ++ e), [("nmap", args)]⟩
    | none =>
      match ParseOne env r.out with
      | .error e => ⟨.error ("mac discovery parse: " ++ e), [("nmap", args)]⟩
      | .ok nr => ⟨.ok (nr.Hosts.foldl macStep (fun _ => none)), [("nmap", args)]⟩

end scan

namespace vendor

/-- The vendor table `DB` (`map[string]string`) as a lookup function.  Its keys are
results of `norm`, which are byte strings. -/
abbrev DB := List UInt8 → Option String

/-- Go `strings.ToUpper`: ASCII letters are shifted, the other characters go through
`unicode.ToUpper`. -/
def ToUpper (env : Env) (s : List Char) : List Char :=
  s.map (fun c => if c.toNat < 128 then c.toUpper else env.unicodeToUpper c)

/-- The UTF-8 bytes of a text. -/
def utf8Bytes (s : List Char) : List UInt8 := s.flatMap String.utf8EncodeChar

/-- Function `norm` of `oui.go`.  `len(s)` and `s[:6]` count bytes, so the result is given as
bytes; `[]` is the empty string. -/
def norm (env : Env) (s : String) : List UInt8 :=
  let s := ToUpper env (trimSpaceChars s.data)
  let s := [":", "-", ".", "0X"].foldl (fun s sep => removeAll sep s) s
  let b := utf8Bytes s
  if b.length < 6 then [] else b.take 6

/-- The built-in table `sample` of `oui.go`. -/
def sample : String := "00:11:22\tAcmeCorp\n00:25:96\tD-Link\n3C:5A:B4\tTP-Link\n48:5A:3F\tCisco\n"

/-- The Go map write `out[k] = v` on a table. -/
def dbSet (out : DB) (k : List UInt8) (v : String) : DB :=
  fun q => if q = k then some v else out q

/-- The body of the loop of `parse`, for one line of the vendor file. -/
def parseLine (env : Env) (out : DB) (ln : String) : DB :=
  let ln := trimSpaceChars ln.data
  if ln.isEmpty || startsWith ['#'] ln then out
  else
    match fieldsGo [] ln with
    | p0 :: p1 :: rest =>
      let k := norm env (String.mk p0)
      if k ≠ [] then dbSet out k (String.mk (List.intercalate [' '] (p1 :: rest))) else out
    | _ =>
      if ln.contains '\t' then
        let k := norm env (String.mk (ln.takeWhile (fun c => c ≠ '\t')))
        if k ≠ [] then
          dbSet out k
            (String.mk (trimSpaceChars ((ln.dropWhile (fun c => c ≠ '\t')).drop 1)))
        else out
      else out

/-- Function `parse` of `oui.go`, on the text read from the reader. -/
def parse (env : Env) (text : String) : DB :=
  (Split text '\n').foldl (parseLine env) (fun _ => none)

/-- Function `LoadDefault` of `oui.go`. -/
def LoadDefault (env : Env) : DB :=
  match env.ouiFile with
  | some b => parse env b
  | none => parse env sample

/-- Function `Lookup` of `oui.go`. -/
def Lookup (env : Env) (db : DB) (mac : String) (fallback : String) : String :=
  if mac = "" then fallback
  else
    let k := norm env mac
    match db k with
    | some v => v
    | none => fallback

end vendor

/-- What the Go runtime leaves open when `mergePorts` runs: the order in which `range`
visits the bindings of a map, and the result of `sort.Slice`. -/
structure Runtime where
  mapRange : List (String × ui.Row) → List (String × ui.Row)
  sortSlice : (ui.Row → ui.Row → Bool) → List ui.Row → List ui.Row

/-- What Go promises about a run: `range` visits every binding once (some permutation of
the bindings), and `sort.Slice` returns a permutation of its input that is ordered by the
comparison, with no promise about the relative order of elements that compare equal. -/
def Runtime.Lawful (rt : Runtime) : Prop :=
  (∀ m, (rt.mapRange m).Perm m) ∧
  (∀ less l, (rt.sortSlice less l).Perm l) ∧
  (∀ (f : ui.Row → String) (l : List ui.Row),
    (rt.sortSlice (fun a b => strLess (f a) (f b)) l).Pairwise
      (fun a b => strLess (f b) (f a) = false))

/-- A run in which `range` visits the bindings in the order they were inserted and the
sort is an insertion sort (what `sort.Slice` does on short slices). -/
def Runtime.forward : Runtime where
  mapRange := fun m => m
  sortSlice := fun less l => l.insertionSort (fun a b => less b a = false)

/-- A run in which `range` visits the bindings in the opposite order. -/
def Runtime.backward : Runtime where
  mapRange := fun m => m.reverse
  sortSlice := fun less l => l.insertionSort (fun a b => less b a = false)

namespace ui

open scan

/-- The address loop of `flatten`, for one address entry (the `switch a.AddrType`). -/
def addrStep (row : Row) (a : Address) : Row :=
  if a.AddrType = "ipv4" ∨ a.AddrType = "ipv6" then { row with IP := a.Addr }
  else if a.AddrType = "mac" then { row with MAC := a.Addr }
  else row

/-- The label of one port: `fmt.Sprintf("%d/%s %s", ...)`, then the product if any. -/
def portLabel (p : Port) : String :=
  let label := toString p.PortID ++ "/" ++ p.Protocol ++ " " ++ p.Service.Name
  if p.Service.Product ≠ "" then label ++ " " ++ p.Service.Product else label

/-- The port loop of `flatten`, for one port. -/
def portStep (row : Row) (p : Port) : Row :=
  if p.State.State = "open" then { row with Ports := row.Ports ++ [portLabel p] } else row

/-- The body of the host loop of `flatten`: the Row built from one parsed host. -/
def hostRow (h : Host) : Row :=
  let row : Row := ⟨"", "", "", "", decide (h.Status.State = "up"), []⟩
  let row := h.Addresses.foldl addrStep row
  let row :=
    match h.Hostnames.Names with
    | n :: _ => { row with Host := n.Name }
    | [] => row
  h.Ports.List.foldl portStep row

/-- The body of the outer loop of `flatten`, for one `HostResult`. -/
def flattenStep (env : Env) (out : List Row) (r : HostResult) : List Row :=
  if r.Err ≠ none ∨ r.XMLBytes = "" then out
  else
    match ParseOne env r.XMLBytes with
    | .error _ => out
    | .ok nr => nr.Hosts.foldl (fun out h => out ++ [hostRow h]) out

/-- The identity key of `mergePorts`. -/
def key (r : Row) : String := r.IP ++ "|" ++ r.MAC ++ "|" ++ r.Host

/-- The Go map `m[k]` read: the binding of `k`, if any. -/
def mapGet (m : List (String × Row)) (k : String) : Option Row :=
  match m.find? (fun e => e.1 = k) with
  | some e => some e.2
  | none => none

/-- The Go map `m[k] = v` write: the binding of `k` is replaced, or added. -/
def mapSet (m : List (String × Row)) (k : String) (v : Row) : List (String × Row) :=
  if m.any (fun e => e.1 = k) then m.map (fun e => if e.1 = k then (k, v) else e)
  else m ++ [(k, v)]

/-- The body of the first loop of `mergePorts`. -/
def mergeStep (m : List (String × Row)) (r : Row) : List (String × Row) :=
  let k := key r
  match mapGet m k with
  | none => mapSet m k r
  | some ex => mapSet m k { ex with Ports := ex.Ports ++ r.Ports }

/-- Function `mergePorts` of `print.go`. -/
def mergePorts (rt : Runtime) (rows : List Row) : List Row :=
  let m := rows.foldl mergeStep []
  let out := (rt.mapRange m).foldl (fun out e => out ++ [e.2]) []
  rt.sortSlice (fun a b => strLess a.IP b.IP) out

/-- Function `flatten` of `print.go`. -/
def flatten (env : Env) (rt : Runtime) (res : List HostResult) : List Row :=
  let out := res.foldl (flattenStep env) []
  mergePorts rt out

/-- The loop that fills missing hardware addresses, shared by the printers; `none` is
the nil map. -/
def fillMACs (showMac : Bool) (macMap : Option MACMap) (rows : List Row) : List Row :=
  match showMac, macMap with
  | true, some m =>
    rows.map (fun r =>
      if r.MAC = "" then
        match m r.IP with
        | some mac => { r with MAC := mac }
        | none => r
      else r)
  | _, _ => rows

/-- Function `WriteJSONWithMACMap` of `print.go`: the rows handed to `json.MarshalIndent`. -/
def WriteJSONWithMACMap (env : Env) (rt : Runtime) (res : List HostResult) (db : vendor.DB)
    (showMac showVendors : Bool) (macMap : Option MACMap) : List Row :=
  let rows := flatten env rt res
  let rows := fillMACs showMac macMap rows
  if showMac && showVendors then
    rows.map (fun r => { r with Vendor := vendor.Lookup env db r.MAC "" })
  else rows

/-- The error that `WriteJSONWithMACMap` returns: the error of writing its rows to the
path. -/
def WriteJSONWithMACMapErr (env : Env) (rt : Runtime) (res : List HostResult)
    (db : vendor.DB) (path : String) (showMac showVendors : Bool)
    (macMap : Option MACMap) : Option String :=
  env.writeJSON path (WriteJSONWithMACMap env rt res db showMac showVendors macMap)

/-- Function `PrintTableWithMACMap` of `print.go`, up to the loop that renders the rows:
the rows that the table is built from. -/
def PrintTableWithMACMap (env : Env) (rt : Runtime) (res : List HostResult)
    (showMac : Bool) (macMap : Option MACMap) : List Row :=
  let rows := flatten env rt res
  fillMACs showMac macMap rows

end ui

namespace scan

/-- Method `LocalRunner.Run` of `runner.go`. -/
def LocalRunner.Run (env : Env) (bin : String) (args : List String) : RunOut :=
  match env.command bin args with
  | (_, errb, some e) => ⟨"", some (bin ++ " failed: " ++ e ++ "\nstderr: " ++ errb)⟩
  | (out, _, none) => ⟨out, none⟩

/-- Method `SSHRunner.Run` of `runner.go`. -/
def SSHRunner.Run (env : Env) (target : String) (bin : String) (args : List String) :
    RunOut :=
  let sshArgs := ["-o", "BatchMode=yes", "-o", "ConnectTimeout=10", target, "--", bin]
  let sshArgs := sshArgs ++ args
  match env.command "ssh" sshArgs with
  | (_, errb, some e) =>
    ⟨"", some ("ssh to " ++ target ++ " failed: " ++ e ++ "\nstderr: " ++ errb)⟩
  | (out, _, none) => ⟨out, none⟩

/-- Function `NewRunner` of `runner.go`. -/
def NewRunner (env : Env) (sshTarget : String) : Runner :=
  if sshTarget = "" then ⟨true, LocalRunner.Run env⟩
  else ⟨false, SSHRunner.Run env sshTarget⟩

end scan

namespace cmd

open scan ui

/-- The flag variables of `main`. -/
structure Flags where
  preset : String
  ports : String
  jsonOut : String
  showMac : Bool
  showVendors : Bool
  rootScan : Bool
  concurrency : Int
  hostTimeoutSec : Int
  view : String
  flagTB : Bool
  flagTR : Bool
  deriving DecidableEq, Repr

/-- What `PreRunE` leaves behind: the value of `view`, the lines written to standard
error, and the error it returns. -/
structure PreRun where
  view : String
  stderr : List String
  err : Option String
  deriving DecidableEq, Repr

/-- The warning of `PreRunE`. -/
def vendorWarning : String :=
  "Warning: --show-vendors requires --show-mac. Vendors will be skipped."

/-- Hook `scanCmd.PreRunE` of `main.go`. -/
def PreRunE (f : Flags) : PreRun :=
  if f.flagTB && f.flagTR then
    ⟨f.view, [], some "choose one: -tb (table) OR -tr (tree), not both"⟩
  else
    let view := if f.flagTB then "table" else f.view
    let view := if f.flagTR then "tree" else view
    let stderr := if f.showVendors && !f.showMac then [vendorWarning] else []
    ⟨view, stderr, none⟩

/-- Function `looksLikeSSHTarget` of `main.go`. -/
def looksLikeSSHTarget (s : String) : Bool :=
  if !Contains s "@" then false
  else if Contains s "/" then false
  else true

/-- A 64-bit signed result of integer arithmetic. -/
def wrap64 (x : Int) : Int := (x + 2 ^ 63) % 2 ^ 64 - 2 ^ 63

/-- The `scan.Config` literal of `RunE`. -/
def mkConfig (f : Flags) : Config :=
  { Preset := f.preset
    Ports := f.ports
    UseSYN := f.rootScan
    Concurrency := f.concurrency
    HostTimeout := wrap64 (f.hostTimeoutSec * 1000000000)
    DisableVendors := !(f.showMac && f.showVendors)
    NeedMAC := f.showMac }

/-- How a run of the command ends. -/
inductive Outcome where
  /-- An error is returned. -/
  | failed : String → Outcome
  /-- The line `No live hosts found.` is printed. -/
  | noLiveHosts : Outcome
  /-- The rows of `WriteJSONWithMACMap` are written to the path, and the error of the
  write (`none` when it succeeds) is returned. -/
  | json : String → List Row → Option String → Outcome
  /-- The tree printer is called on the scan results. -/
  | tree : List HostResult → Outcome
  /-- The rows of `PrintTableWithMACMap` are rendered. -/
  | table : List Row → Outcome

/-- The observable result of the command: the outcome, what was written to standard
error by the hooks, and the runner invocations made (the per-host scans are listed in
the order of the host list). -/
structure CmdResult where
  outcome : Outcome
  stderr : List String
  calls : List Call

/-- Hook `scanCmd.RunE` of `main.go`, with `view` as left by `PreRunE`.  The value is `none`
when `sched` is not a complete execution of the worker pool, and on an empty `argv`,
which `cobra.MinimumNArgs(1)` excludes. -/
def RunE (env : Env) (rt : Runtime) (sched : List Event) (f : Flags) (argv : List String) :
    Option CmdResult :=
  match argv with
  | [] => none
  | a0 :: rest =>
    let ssh := looksLikeSSHTarget a0
    if ssh && rest.isEmpty then
      some ⟨.failed "no scan targets provided after SSH target", [], []⟩
    else
      let sshTarget := if ssh then a0 else ""
      let targets := if ssh then rest else argv
      let runner := NewRunner env sshTarget
      let cfg := mkConfig f
      let d := HostDiscovery env targets runner
      match d.val with
      | .error e => some ⟨.failed e, [], d.calls⟩
      | .ok live =>
        if live.length = 0 then some ⟨.noLiveHosts, [], d.calls⟩
        else
          let mm := DiscoverMACs env live runner
          let macMap : Option MACMap :=
            if f.showMac then
              match mm.val with
              | .ok m => some m
              | .error _ => none
            else none
          let macCalls := if f.showMac then mm.calls else []
          match ScanHosts env sched live cfg runner with
          | none => none
          | some (_, some e) => some ⟨.failed e, [], d.calls ++ macCalls⟩
          | some (results, none) =>
            let calls := d.calls ++ macCalls ++
              live.flatMap (fun ip => (scanOne env ip cfg runner).calls)
            let oui : vendor.DB :=
              if f.showMac && f.showVendors then vendor.LoadDefault env else fun _ => none
            if f.jsonOut ≠ "" then
              some ⟨.json f.jsonOut
                (WriteJSONWithMACMap env rt results oui f.showMac f.showVendors macMap)
                (WriteJSONWithMACMapErr env rt results oui f.jsonOut f.showMac f.showVendors
                  macMap),
                [], calls⟩
            else if f.view = "tree" then some ⟨.tree results, [], calls⟩
            else some ⟨.table (PrintTableWithMACMap env rt results f.showMac macMap), [], calls⟩

/-- The `scan` command as cobra runs it: the argument count is checked, then `PreRunE`
runs, and `RunE` runs only if `PreRunE` returned no error. -/
def scanCmd (env : Env) (rt : Runtime) (sched : List Event) (f : Flags)
    (argv : List String) : Option CmdResult :=
  if argv.length < 1 then
    some ⟨.failed "requires at least 1 arg(s), only received 0", [], []⟩
  else
    let pre := PreRunE f
    match pre.err with
    | some e => some ⟨.failed e, pre.stderr, []⟩
    | none =>
      match RunE env rt sched { f with view := pre.view } argv with
      | some r => some { r with stderr := pre.stderr ++ r.stderr }
      | none => none

end cmd

end Ndscan
namespace Ndscan

/-! ## An environment for the examples -/

namespace Example

open scan

/-- The two open ports of the example host. -/
def portsA : Ports :=
  ⟨[⟨"tcp", 22, ⟨"open"⟩, ⟨"ssh", "", ""⟩⟩,
    ⟨"tcp", 80, ⟨"open"⟩, ⟨"http", "", ""⟩⟩]⟩

/-- The scan output of host `192.168.1.5`. -/
def docA : String :=
  "<nmaprun><host><status state=\"up\"/><address addr=\"192.168.1.5\" addrtype=\"ipv4\"/>" ++
  "<ports><port protocol=\"tcp\" portid=\"22\"><state state=\"open\"/><service name=\"ssh\"/>" ++
  "</port><port protocol=\"tcp\" portid=\"80\"><state state=\"open\"/>" ++
  "<service name=\"http\"/></port></ports></host></nmaprun>"

/-- The record `xml.Unmarshal` decodes from `docA`. -/
def runA : NmapRun :=
  ⟨[⟨⟨"up"⟩, [⟨"192.168.1.5", "ipv4", ""⟩], ⟨[]⟩, portsA⟩]⟩

/-- A scan output of the same host that also reports its hardware address. -/
def docAMac : String :=
  "<nmaprun><host><status state=\"up\"/><address addr=\"192.168.1.5\" addrtype=\"ipv4\"/>" ++
  "<address addr=\"00:11:22:33:44:55\" addrtype=\"mac\"/>" ++
  "<ports><port protocol=\"tcp\" portid=\"22\"><state state=\"open\"/><service name=\"ssh\"/>" ++
  "</port><port protocol=\"tcp\" portid=\"80\"><state state=\"open\"/>" ++
  "<service name=\"http\"/></port></ports></host></nmaprun>"

/-- The record `xml.Unmarshal` decodes from `docAMac`. -/
def runAMac : NmapRun :=
  ⟨[⟨⟨"up"⟩, [⟨"192.168.1.5", "ipv4", ""⟩, ⟨"00:11:22:33:44:55", "mac", ""⟩], ⟨[]⟩,
    portsA⟩]⟩

/-- The grepable output of the host discovery of the examples: two live hosts. -/
def discoveryOut : String :=
  "# Nmap 7.94 scan initiated as: nmap -sn -oG - 192.168.1.0/24\n" ++
  "Host: 192.168.1.5 (unknown)  Status: Up\n" ++
  "Host: 192.168.1.9 ()\tStatus: Up\n" ++
  "# Nmap done: 256 IP addresses (2 hosts up) scanned in 2.41 seconds\n"

/-- Formatter `time.Duration.String` on whole, non-negative numbers of seconds (`20s`,
`1m30s`, `1h0m0s`); the examples use no other duration. -/
def durationString (n : Int) : String :=
  let secs := n / 1000000000
  let h := secs / 3600
  let m := secs % 3600 / 60
  let s := secs % 60
  if 0 < h then toString h ++ "h" ++ toString m ++ "m" ++ toString s ++ "s"
  else if 0 < m then toString m ++ "m" ++ toString s ++ "s"
  else toString s ++ "s"

/-- The processes of the examples: the discovery finds two hosts, the scan of
`192.168.1.5` succeeds and the scan of `192.168.1.9` is killed at the deadline. -/
def command (bin : String) (args : List String) : String × String × Option String :=
  if bin = "nmap" then
    if args.head? = some "-sn" then (discoveryOut, "", none)
    else if args.getLast? = some "192.168.1.5" then (docA, "", none)
    else ("", "", some "signal: killed")
  else ("", "", some "exit status 255")

/-- The environment of the examples. -/
def env : Env where
  lookPathNmap := true
  xmlUnmarshal := fun b =>
    if b = docA then .ok runA
    else if b = docAMac then .ok runAMac
    else .error "EOF"
  durationString := durationString
  unicodeToUpper := fun c => c
  command := command
  ouiFile := none
  writeJSON := fun _ _ => none

/-- An environment in which `nmap` is not installed: the search of the path fails and
so does every attempt to run it. -/
def envNoTool : Env where
  lookPathNmap := false
  xmlUnmarshal := env.xmlUnmarshal
  durationString := durationString
  unicodeToUpper := fun c => c
  command := fun bin _ =>
    if bin = "nmap" then ("", "", some "exec: \"nmap\": executable file not found in $PATH")
    else ("", "", some "exit status 255")
  ouiFile := none
  writeJSON := fun _ _ => none

/-- The configuration of the examples: preset `quick`, one worker, a 20 s host timeout. -/
def cfg : Config := ⟨"quick", "", false, 1, 20000000000, true, false⟩

/-- The live hosts of the examples. -/
def live : List String := ["192.168.1.5", "192.168.1.9"]

/-- The entries of the scan of the example hosts: the output of the first host, the
error of the second. -/
def scanResults : List HostResult :=
  [⟨"192.168.1.5", docA, none⟩,
   ⟨"192.168.1.9", "", some "nmap failed: signal: killed\nstderr: "⟩]

/-- The arguments of the scan of `192.168.1.5` under the example configuration. -/
def scanArgs : List String :=
  ["-oX", "-", "-Pn", "-sT", "-T4", "-F", "--host-timeout", "20s", "--max-retries", "1",
    "--min-rate", "200", "192.168.1.5"]

/-- Two scans of the same host, the second of which also saw its hardware address. -/
def twoScans : List HostResult :=
  [⟨"192.168.1.5", docA, none⟩, ⟨"192.168.1.5", docAMac, none⟩]

/-- The Row of the first scan of `twoScans`. -/
def rowNoMac : ui.Row :=
  ⟨"192.168.1.5", "", "", "", true, ["22/tcp ssh", "80/tcp http"]⟩

/-- The Row of the second scan of `twoScans`. -/
def rowMac : ui.Row :=
  ⟨"192.168.1.5", "00:11:22:33:44:55", "", "", true, ["22/tcp ssh", "80/tcp http"]⟩

/-- The flags of the examples: the defaults of the command, with vendor names requested
and hardware addresses not. -/
def flags : cmd.Flags :=
  ⟨"quick", "", "", false, true, false, 32, 20, "table", false, false⟩

/-- The address-resolution map of the examples, as `DiscoverMACs` builds it when the
discovery reports the hardware address of `192.168.1.5`. -/
def macMap : scan.MACMap :=
  fun ip => if ip = "192.168.1.5" then some "00:11:22:33:44:55" else none

end Example

end Ndscan
namespace Ndscan
namespace scan

/-! ## The invariant of the worker pool -/

/-- The entry `ScanHosts` stores for a host: its address and what `scanOne` returned. -/
def hostEntry (env : Env) (cfg : Config) (runner : Runner) (host : String) : HostResult :=
  ⟨host, (scanOne env host cfg runner).val.out, (scanOne env host cfg runner).val.err⟩

/-- The invariant of the pool: started goroutines know their own host, no index runs
twice, and every slot whose goroutine has finished holds the entry of its host. -/
structure PoolInv (env : Env) (live : List String) (cfg : Config) (runner : Runner)
    (s : PoolState) : Prop where
  next_le : s.next ≤ live.length
  res_len : s.res.length = live.length
  running_ok : ∀ e ∈ s.running, e.1 < s.next ∧ live[e.1]? = some e.2
  running_nodup : (s.running.map Prod.fst).Nodup
  slots : ∀ i h, live[i]? = some h → i < s.next → i ∉ s.running.map Prod.fst →
    s.res[i]? = some (hostEntry env cfg runner h)

/-- A bound on the number of events the pool can still perform. -/
def poolMeasure (live : List String) (s : PoolState) : Nat :=
  2 * (live.length - s.next) + s.running.length

end scan
end Ndscan
namespace Ndscan
namespace ui

/-! ## The invariant of the merge loop -/

/-- The Row that the rows with identity key `k` merge into: the first of them, with the
port lists of all of them concatenated in input order. -/
def mergedOf (rows : List Row) (k : String) : Option Row :=
  match rows.find? (fun x => key x = k) with
  | some r0 => some { r0 with Ports := (rows.filter (fun x => key x = k)).flatMap Row.Ports }
  | none => none

/-- The invariant of the first loop of `mergePorts`, after the rows `rows`: the map has
one binding per key seen, and the binding of a key is the merge of the rows with that
key. -/
structure MergeInv (m : List (String × Row)) (rows : List Row) : Prop where
  nodup : (m.map Prod.fst).Nodup
  merged : ∀ e ∈ m, mergedOf rows e.1 = some e.2
  seen : ∀ r ∈ rows, key r ∈ m.map Prod.fst

end ui
end Ndscan
namespace Ndscan
namespace vendor

/-! ## Spellings of a hardware address -/

/-- The hexadecimal digits, in both letter cases. -/
def hexDigits : List Char := "0123456789abcdefABCDEF".data

/-- Is the character a hexadecimal digit? -/
def isHexDigit (c : Char) : Bool := hexDigits.contains c

/-- Is the character one of the separators `:`, `-` and `.`? -/
def isSeparator (c : Char) : Bool := c == ':' || c == '-' || c == '.'

/-- Is `s` obtained from the digit string `h` by changing the letter case of digits and
inserting separators at any positions?  Reading `s` from the left, a separator is an
inserted character, and any other character must be the next digit of `h` up to case. -/
def isVariantOf : List Char → List Char → Bool
  | [], h => h.isEmpty
  | c :: s, h =>
    if isSeparator c then isVariantOf s h
    else
      match h with
      | [] => false
      | d :: h' => isHexDigit c && c.toUpper == d.toUpper && isVariantOf s h'

end vendor
end Ndscan
namespace Ndscan

/-! ## Order lemmas for the string comparison -/

theorem charsLess_asymm : ∀ a b : List Char, charsLess a b = true → charsLess b a = false
  | [], [] => by simp [charsLess]
  | [], _ :: _ => by simp [charsLess]
  | _ :: _, [] => by simp [charsLess]
  | a :: as, b :: bs => by
    intro h
    unfold charsLess at h ⊢
    by_cases h1 : a.toNat < b.toNat
    · have h2 : ¬ b.toNat < a.toNat := by omega
      simp [h1, h2]
    · by_cases h2 : b.toNat < a.toNat
      · simp [h1, h2] at h
      · simp only [h1, h2, if_false] at h ⊢
        exact charsLess_asymm as bs h

theorem charsLess_nil_right : ∀ c : List Char, charsLess c [] = false
  | [] => rfl
  | _ :: _ => rfl

theorem charsLess_trans_ge : ∀ a b c : List Char,
    charsLess b a = false → charsLess c b = false → charsLess c a = false
  | [], _, c => fun _ _ => charsLess_nil_right c
  | _ :: _, [], _ => by
    intro h; simp [charsLess] at h
  | _ :: _, _ :: _, [] => by
    intro _ h; simp [charsLess] at h
  | a :: as, b :: bs, c :: cs => by
    intro h1 h2
    unfold charsLess at h1 h2 ⊢
    by_cases hba : b.toNat < a.toNat
    · simp [hba] at h1
    · by_cases hab : a.toNat < b.toNat
      · by_cases hcb : c.toNat < b.toNat
        · simp [hcb] at h2
        · have h3 : ¬ c.toNat < a.toNat := by omega
          have h4 : a.toNat < c.toNat := by omega
          simp [h3, h4]
      · simp only [hba, hab, if_false] at h1
        by_cases hcb : c.toNat < b.toNat
        · simp [hcb] at h2
        · by_cases hbc : b.toNat < c.toNat
          · have h3 : ¬ c.toNat < a.toNat := by omega
            have h4 : a.toNat < c.toNat := by omega
            simp [h3, h4]
          · simp only [hcb, hbc, if_false] at h2
            have h3 : ¬ c.toNat < a.toNat := by omega
            have h4 : ¬ a.toNat < c.toNat := by omega
            simp only [h3, h4, if_false]
            exact charsLess_trans_ge as bs cs h1 h2

/-- The insertion sort of a list of rows by a string-valued field is ordered. -/
theorem insertionSort_sorted_by (f : ui.Row → String) (l : List ui.Row) :
    (l.insertionSort (fun a b => strLess (f b) (f a) = false)).Pairwise
      (fun a b => strLess (f b) (f a) = false) := by
  haveI : IsTotal ui.Row (fun a b => strLess (f b) (f a) = false) :=
    ⟨fun a b => by
      by_cases h : strLess (f b) (f a) = true
      · right; exact charsLess_asymm _ _ h
      · left; simpa using h⟩
  haveI : IsTrans ui.Row (fun a b => strLess (f b) (f a) = false) :=
    ⟨fun a b c h1 h2 => charsLess_trans_ge _ _ _ h1 h2⟩
  exact List.sorted_insertionSort _ l

theorem Runtime.forward_lawful : Runtime.forward.Lawful :=
  ⟨fun m => List.Perm.refl m, fun _ l => List.perm_insertionSort _ l,
    fun f l => insertionSort_sorted_by f l⟩

theorem Runtime.backward_lawful : Runtime.backward.Lawful :=
  ⟨fun m => List.reverse_perm m, fun _ l => List.perm_insertionSort _ l,
    fun f l => insertionSort_sorted_by f l⟩

end Ndscan
namespace Ndscan
namespace scan

/-! ## The worker pool of `ScanHosts` -/

theorem lookup_mem {l : List (Nat × String)} {i : Nat} {h : String}
    (hl : l.lookup i = some h) : (i, h) ∈ l := by
  induction l with
  | nil => simp at hl
  | cons e l ih =>
    obtain ⟨j, x⟩ := e
    rw [List.lookup_cons] at hl
    by_cases hij : i = j
    · subst hij
      simp at hl
      subst hl
      exact List.mem_cons_self _ _
    · have : (i == j) = false := by simpa using hij
      rw [this] at hl
      exact List.mem_cons_of_mem _ (ih hl)

theorem lookup_of_mem {l : List (Nat × String)} {i : Nat} {h : String}
    (hm : (i, h) ∈ l) : ∃ h2, l.lookup i = some h2 := by
  induction l with
  | nil => simp at hm
  | cons e l ih =>
    obtain ⟨j, x⟩ := e
    rw [List.lookup_cons]
    by_cases hij : i = j
    · subst hij
      exact ⟨x, by simp⟩
    · have hb : (i == j) = false := by simpa using hij
      rw [hb]
      rcases List.mem_cons.1 hm with h1 | h1
      · exact absurd (congrArg Prod.fst h1) hij
      · exact ih h1

theorem poolInit_inv (env : Env) (live : List String) (cfg : Config) (runner : Runner) :
    PoolInv env live cfg runner (poolInit live) where
  next_le := Nat.zero_le _
  res_len := by simp [poolInit]
  running_ok := by simp [poolInit]
  running_nodup := by simp [poolInit]
  slots := by
    intro i h _ hi
    simp [poolInit] at hi

theorem poolStep_inv {env : Env} {live : List String} {cfg : Config} {runner : Runner}
    {s t : PoolState} {e : Event} (hs : PoolInv env live cfg runner s)
    (hst : poolStep env live cfg runner s e = some t) : PoolInv env live cfg runner t := by
  cases e with
  | start =>
    simp only [poolStep] at hst
    cases hg : live[s.next]? with
    | none => simp [hg] at hst
    | some ip =>
      rw [hg] at hst
      simp only at hst
      by_cases hc : s.running.length < semCap cfg
      · rw [if_pos hc] at hst
        cases hst
        have hlt : s.next < live.length := by
          rcases List.getElem?_eq_some.1 hg with ⟨h, _⟩
          exact h
        refine ⟨hlt, hs.res_len, ?_, ?_, ?_⟩
        · intro e he
          rcases List.mem_append.1 he with h1 | h1
          · have := hs.running_ok e h1
            exact ⟨Nat.lt_succ_of_lt this.1, this.2⟩
          · simp at h1
            subst h1
            exact ⟨Nat.lt_succ_self _, hg⟩
        · simp only [List.map_append, List.map_cons, List.map_nil]
          refine List.Nodup.append hs.running_nodup (List.nodup_singleton _) ?_
          intro a ha hb
          simp at hb
          subst hb
          rcases List.mem_map.1 ha with ⟨e, he, h2⟩
          have := (hs.running_ok e he).1
          omega
        · intro i h hi hlt2 hnot
          simp only [List.map_append, List.map_cons, List.map_nil, List.mem_append,
            List.mem_singleton, not_or] at hnot
          have : i < s.next := by
            have := Nat.lt_succ_iff.1 hlt2
            omega
          exact hs.slots i h hi this hnot.1
      · rw [if_neg hc] at hst
        cases hst
  | finish i =>
    simp only [poolStep] at hst
    cases hl : s.running.lookup i with
    | none => simp [hl] at hst
    | some host =>
      rw [hl] at hst
      simp only at hst
      cases hst
      have hmem := lookup_mem hl
      have hok := hs.running_ok _ hmem
      have hil : i < live.length := by
        rcases List.getElem?_eq_some.1 hok.2 with ⟨h, _⟩
        exact h
      refine ⟨hs.next_le, by simp [hs.res_len], ?_, ?_, ?_⟩
      · intro e he
        exact hs.running_ok e (List.mem_of_mem_filter he)
      · exact List.Nodup.sublist ((List.filter_sublist _).map _) hs.running_nodup
      · intro j h hj hlt hnot
        by_cases hji : j = i
        · subst hji
          have h1 : h = host := by
            have := hok.2
            rw [hj] at this
            exact Option.some.inj this
          subst h1
          simp [hostEntry, List.getElem?_set, hs.res_len, hil]
        · have hnot2 : j ∉ s.running.map Prod.fst := by
            intro hm
            rcases List.mem_map.1 hm with ⟨e, he, rfl⟩
            apply hnot
            refine List.mem_map.2 ⟨e, List.mem_filter.2 ⟨he, ?_⟩, rfl⟩
            simpa using hji
          have := hs.slots j h hj hlt hnot2
          rw [List.getElem?_set_ne (Ne.symm hji)]
          exact this

theorem poolRun_inv {env : Env} {live : List String} {cfg : Config} {runner : Runner} :
    ∀ (sched : List Event) {s t : PoolState}, PoolInv env live cfg runner s →
      poolRun env live cfg runner s sched = some t → PoolInv env live cfg runner t
  | [], s, t, hs, h => by
    simp [poolRun] at h
    subst h
    exact hs
  | e :: es, s, t, hs, h => by
    simp only [poolRun] at h
    cases hst : poolStep env live cfg runner s e with
    | none => simp [hst] at h
    | some u =>
      rw [hst] at h
      exact poolRun_inv es (poolStep_inv hs hst) h

end scan
end Ndscan
namespace Ndscan
namespace scan

theorem semCap_pos (cfg : Config) : 1 ≤ semCap cfg := by
  unfold semCap max
  split <;> omega

theorem poolStep_measure {env : Env} {live : List String} {cfg : Config} {runner : Runner}
    {s t : PoolState} {e : Event}
    (hst : poolStep env live cfg runner s e = some t) :
    poolMeasure live t < poolMeasure live s := by
  cases e with
  | start =>
    simp only [poolStep] at hst
    cases hg : live[s.next]? with
    | none => simp [hg] at hst
    | some ip =>
      rw [hg] at hst
      simp only at hst
      by_cases hc : s.running.length < semCap cfg
      · rw [if_pos hc] at hst
        cases hst
        have hlt : s.next < live.length := by
          rcases List.getElem?_eq_some.1 hg with ⟨h, _⟩
          exact h
        simp only [poolMeasure, List.length_append, List.length_singleton]
        omega
      · rw [if_neg hc] at hst
        cases hst
  | finish i =>
    simp only [poolStep] at hst
    cases hl : s.running.lookup i with
    | none => simp [hl] at hst
    | some host =>
      rw [hl] at hst
      simp only at hst
      cases hst
      have hmem := lookup_mem hl
      have : (s.running.filter (fun e => decide (e.1 ≠ i))).length < s.running.length :=
        List.length_filter_lt_length_iff_exists.2 ⟨(i, host), hmem, by simp⟩
      simp only [poolMeasure]
      omega

theorem poolStep_progress {env : Env} {live : List String} {cfg : Config} {runner : Runner}
    {s : PoolState} (hs : PoolInv env live cfg runner s) (hd : poolDone live s = false) :
    ∃ e t, poolStep env live cfg runner s e = some t := by
  cases hr : s.running with
  | nil =>
    have hne : s.next ≠ live.length := by
      intro h
      simp [poolDone, h, hr] at hd
    have hlt : s.next < live.length := lt_of_le_of_ne hs.next_le hne
    refine ⟨.start,
      { s with next := s.next + 1, running := s.running ++ [(s.next, live[s.next])] }, ?_⟩
    simp only [poolStep, List.getElem?_eq_getElem hlt, hr, List.length_nil]
    rw [if_pos (show 0 < semCap cfg from semCap_pos cfg)]
  | cons e es =>
    obtain ⟨h2, hl⟩ := @lookup_of_mem s.running e.1 e.2
      (by rw [hr]; exact List.mem_cons_self _ _)
    cases hst : poolStep env live cfg runner s (.finish e.1) with
    | some t => exact ⟨_, t, hst⟩
    | none => simp [poolStep, hl] at hst

theorem poolRun_append (env : Env) (live : List String) (cfg : Config) (runner : Runner) :
    ∀ (a b : List Event) (s : PoolState),
      poolRun env live cfg runner s (a ++ b) =
        (poolRun env live cfg runner s a).bind (fun t => poolRun env live cfg runner t b)
  | [], b, s => by simp [poolRun]
  | e :: a, b, s => by
    simp only [List.cons_append, poolRun]
    cases poolStep env live cfg runner s e with
    | none => simp
    | some u => exact poolRun_append env live cfg runner a b u

theorem poolRun_length {env : Env} {live : List String} {cfg : Config} {runner : Runner} :
    ∀ (sched : List Event) {s t : PoolState},
      poolRun env live cfg runner s sched = some t →
        sched.length + poolMeasure live t ≤ poolMeasure live s
  | [], s, t, h => by
    simp [poolRun] at h
    subst h
    simp
  | e :: es, s, t, h => by
    simp only [poolRun] at h
    cases hst : poolStep env live cfg runner s e with
    | none => simp [hst] at h
    | some u =>
      rw [hst] at h
      have h1 := poolRun_length es h
      have h2 := poolStep_measure hst
      simp only [List.length_cons]
      omega

theorem poolRun_complete {env : Env} {live : List String} {cfg : Config} {runner : Runner} :
    ∀ (n : Nat) (s : PoolState), poolMeasure live s ≤ n → PoolInv env live cfg runner s →
      ∃ sched t, poolRun env live cfg runner s sched = some t ∧ poolDone live t = true
  | 0, s, hn, hs => by
    refine ⟨[], s, rfl, ?_⟩
    cases hd : poolDone live s with
    | true => rfl
    | false =>
      obtain ⟨e, t, hst⟩ := poolStep_progress hs hd
      have := poolStep_measure hst
      omega
  | n + 1, s, hn, hs => by
    cases hd : poolDone live s with
    | true => exact ⟨[], s, rfl, hd⟩
    | false =>
      obtain ⟨e, t, hst⟩ := poolStep_progress hs hd
      have hlt := poolStep_measure hst
      obtain ⟨sched, u, hrun, hdone⟩ :=
        poolRun_complete n t (by omega) (poolStep_inv hs hst)
      exact ⟨e :: sched, u, by simp [poolRun, hst, hrun], hdone⟩

/-- At the end of a complete execution the result slice is the host list mapped to the
entries of the hosts. -/
theorem poolDone_res {env : Env} {live : List String} {cfg : Config} {runner : Runner}
    {s : PoolState} (hs : PoolInv env live cfg runner s) (hd : poolDone live s = true) :
    s.res = live.map (hostEntry env cfg runner) := by
  simp only [poolDone, Bool.and_eq_true, beq_iff_eq, List.isEmpty_iff] at hd
  apply List.ext_getElem?
  intro i
  by_cases hi : i < live.length
  · have hl : live[i]? = some live[i] := List.getElem?_eq_getElem hi
    have := hs.slots i live[i] hl (by omega) (by simp [hd.2])
    rw [this, List.getElem?_map, hl]
    rfl
  · have h1 : s.res[i]? = none := List.getElem?_eq_none (by rw [hs.res_len]; omega)
    have h2 : (live.map (hostEntry env cfg runner))[i]? = none :=
      List.getElem?_eq_none (by simp; omega)
    rw [h1, h2]

/-- Every host list has a complete execution of the pool. -/
theorem ScanHosts_exists (env : Env) (live : List String) (cfg : Config) (runner : Runner) :
    ∃ sched, ScanHosts env sched live cfg runner =
      some (live.map (hostEntry env cfg runner), none) := by
  by_cases h0 : live.length = 0
  · refine ⟨[], ?_⟩
    have : live = [] := List.length_eq_zero.1 h0
    simp [ScanHosts, this]
  · obtain ⟨sched, t, hrun, hdone⟩ :=
      @poolRun_complete env live cfg runner _ (poolInit live)
        (le_refl _) (poolInit_inv env live cfg runner)
    refine ⟨sched, ?_⟩
    have hinv := poolRun_inv sched (poolInit_inv env live cfg runner) hrun
    simp only [ScanHosts, if_neg h0, hrun, hdone, if_true]
    rw [poolDone_res hinv hdone]

end scan
end Ndscan
namespace Ndscan
namespace scan

/-- Every completed execution returns the host list mapped to the entries of the hosts,
and a nil error. -/
theorem ScanHosts_some {env : Env} {sched : List Event} {live : List String} {cfg : Config}
    {runner : Runner} {r : List HostResult × Option String}
    (hr : ScanHosts env sched live cfg runner = some r) :
    r = (live.map (hostEntry env cfg runner), none) := by
  by_cases h0 : live.length = 0
  · have hl : live = [] := List.length_eq_zero.1 h0
    subst hl
    simp [ScanHosts] at hr
    rw [← hr]
    rfl
  · simp only [ScanHosts, if_neg h0] at hr
    cases hrun : poolRun env live cfg runner (poolInit live) sched with
    | none => simp [hrun] at hr
    | some s =>
      rw [hrun] at hr
      simp only at hr
      cases hd : poolDone live s with
      | false => simp [hd] at hr
      | true =>
        simp only [hd, if_true, Option.some.injEq] at hr
        subst hr
        have hinv := poolRun_inv sched (poolInit_inv env live cfg runner) hrun
        rw [poolDone_res hinv hd]

/-- Every partial execution is short and can be run to completion. -/
theorem poolRun_extends {env : Env} {live : List String} {cfg : Config} {runner : Runner}
    {sched : List Event} {s : PoolState}
    (hrun : poolRun env live cfg runner (poolInit live) sched = some s) :
    sched.length ≤ 2 * live.length ∧
    ∃ rest, ScanHosts env (sched ++ rest) live cfg runner =
      some (live.map (hostEntry env cfg runner), none) := by
  have hinv := poolRun_inv sched (poolInit_inv env live cfg runner) hrun
  refine ⟨?_, ?_⟩
  · have := poolRun_length sched hrun
    simp only [poolMeasure, poolInit, List.length_nil] at this
    omega
  · obtain ⟨rest, t, hrest, hdone⟩ :=
      @poolRun_complete env live cfg runner _ s (le_refl _) hinv
    refine ⟨rest, ?_⟩
    have hfull : poolRun env live cfg runner (poolInit live) (sched ++ rest) = some t := by
      rw [poolRun_append, hrun]
      exact hrest
    have hinv2 := poolRun_inv (sched ++ rest) (poolInit_inv env live cfg runner) hfull
    by_cases h0 : live.length = 0
    · have hl : live = [] := List.length_eq_zero.1 h0
      subst hl
      simp [ScanHosts]
    · simp only [ScanHosts, if_neg h0, hfull, hdone, if_true]
      rw [poolDone_res hinv2 hdone]

theorem scanOne_tool_missing {env : Env} {runner : Runner} (cfg : Config)
    (h : (runner.isLocal && !env.lookPathNmap) = true) (host : String) :
    scanOne env host cfg runner = ⟨⟨"", some "nmap not found"⟩, []⟩ := by
  simp only [scanOne, h, if_true]

theorem scanOne_invokes {env : Env} {runner : Runner} (cfg : Config)
    (h : (runner.isLocal && !env.lookPathNmap) = false) (host : String) :
    ∃ args, args.getLast? = some host ∧
      scanOne env host cfg runner = ⟨runner.Run "nmap" args, [("nmap", args)]⟩ := by
  simp only [scanOne, h]
  exact ⟨_, by simp, rfl⟩

/-- C1, the claim as stated fails: with the local runner on a machine where `nmap` is not
on the search path, `ScanHosts` returns a nil error and one entry per host, but the
entries do not carry what the runner returns for the host: the runner is never invoked,
and each entry carries the error `nmap not found` of the tool check of `scanOne`, while
the runner, called with the arguments of the scan of the host (those `scanOne` passes
when the tool is there), returns another error. -/
theorem ScanHosts_tool_missing_counterexample :
    (NewRunner Example.envNoTool "").isLocal = true ∧
    Example.envNoTool.lookPathNmap = false ∧
    ScanHosts Example.envNoTool [.start, .finish 0, .start, .finish 1] Example.live
        Example.cfg (NewRunner Example.envNoTool "") =
      some ([⟨"192.168.1.5", "", some "nmap not found"⟩,
             ⟨"192.168.1.9", "", some "nmap not found"⟩], none) ∧
    (scanOne Example.envNoTool "192.168.1.5" Example.cfg
        (NewRunner Example.envNoTool "")).calls = [] ∧
    (scanOne Example.env "192.168.1.5" Example.cfg (NewRunner Example.env "")).calls =
      [("nmap", Example.scanArgs)] ∧
    (NewRunner Example.envNoTool "").Run "nmap" Example.scanArgs =
      ⟨"", some ("nmap failed: exec: \"nmap\": executable file not found in $PATH" ++
        "\nstderr: ")⟩ := by
  decide

/-- C1 as amended: for every host list and every concurrency setting, `ScanHosts` has a
complete execution, and every complete execution, whatever the interleaving, returns a
nil error and one entry per host, the entry at index `i` holding `live[i]` and exactly
the output and error that `scanOne` returned for `live[i]`.  That is what the runner
returned for its one `nmap` invocation for the host (an argument list ending in the
host), except when the runner is local and `nmap` is not on the search path: then the
runner is not invoked and the entry carries no output and the error `nmap not found`.
Every partial execution has at most `2K` events and can be run to completion, and the
entry of a host is the same under any runner that behaves the same for that host,
whatever happens to the other hosts. -/
theorem ScanHosts_positional (env : Env) (cfg : Config) (runner : Runner)
    (live : List String) :
    (∃ sched, ScanHosts env sched live cfg runner =
      some (live.map (fun host =>
        ⟨host, (scanOne env host cfg runner).val.out,
          (scanOne env host cfg runner).val.err⟩), none)) ∧
    (∀ sched r, ScanHosts env sched live cfg runner = some r →
      r.2 = none ∧ r.1.length = live.length ∧
      ∀ (i : Nat) (hi : i < live.length), r.1[i]? = some
        ⟨live[i], (scanOne env live[i] cfg runner).val.out,
          (scanOne env live[i] cfg runner).val.err⟩) ∧
    (∀ sched s, poolRun env live cfg runner (poolInit live) sched = some s →
      sched.length ≤ 2 * live.length ∧
      ∃ rest, ScanHosts env (sched ++ rest) live cfg runner =
        some (live.map (fun host =>
          ⟨host, (scanOne env host cfg runner).val.out,
            (scanOne env host cfg runner).val.err⟩), none)) ∧
    ((runner.isLocal && !env.lookPathNmap) = false → ∀ host, ∃ args,
      args.getLast? = some host ∧
        scanOne env host cfg runner = ⟨runner.Run "nmap" args, [("nmap", args)]⟩) ∧
    ((runner.isLocal && !env.lookPathNmap) = true → ∀ host,
      scanOne env host cfg runner = ⟨⟨"", some "nmap not found"⟩, []⟩) ∧
    (∀ (runner2 : Runner) (i : Nat) (hi : i < live.length),
      (scanOne env live[i] cfg runner2).val = (scanOne env live[i] cfg runner).val →
      ∀ sched sched2 r r2, ScanHosts env sched live cfg runner = some r →
        ScanHosts env sched2 live cfg runner2 = some r2 → r2.1[i]? = r.1[i]?) := by
  refine ⟨ScanHosts_exists env live cfg runner, ?_, ?_, ?_, ?_, ?_⟩
  · intro sched r hr
    have h := ScanHosts_some hr
    subst h
    refine ⟨rfl, by simp, ?_⟩
    intro i hi
    simp only [List.getElem?_map, List.getElem?_eq_getElem hi]
    rfl
  · intro sched s hrun
    exact poolRun_extends hrun
  · intro h host
    exact scanOne_invokes cfg h host
  · intro h host
    exact scanOne_tool_missing cfg h host
  · intro runner2 i hi hsame sched sched2 r r2 hr hr2
    have h := ScanHosts_some hr
    have h2 := ScanHosts_some hr2
    subst h
    subst h2
    simp only [List.getElem?_map, List.getElem?_eq_getElem hi, Option.map_some',
      hostEntry, hsame]

/-- C1 as amended, at the example hosts: the sequential interleaving returns the two
entries, so does one in which the second host finishes first, and every complete
execution returns a nil error, two entries, the output of the first host and the error
of the second. -/
theorem ScanHosts_positional_witness :
    ScanHosts Example.env [.start, .finish 0, .start, .finish 1] Example.live Example.cfg
        (NewRunner Example.env "") = some (Example.scanResults, none) ∧
    ScanHosts Example.env [.start, .start, .finish 1, .finish 0] Example.live
        { Example.cfg with Concurrency := 2 } (NewRunner Example.env "") =
      some (Example.scanResults, none) ∧
    ((NewRunner Example.env "").isLocal && !Example.env.lookPathNmap) = false ∧
    (∃ args, args.getLast? = some "192.168.1.9" ∧
      scanOne Example.env "192.168.1.9" Example.cfg (NewRunner Example.env "") =
        ⟨(NewRunner Example.env "").Run "nmap" args, [("nmap", args)]⟩) ∧
    ∀ sched r, ScanHosts Example.env sched Example.live Example.cfg
        (NewRunner Example.env "") = some r →
      r.2 = none ∧ r.1.length = 2 ∧
      r.1[0]? = some ⟨"192.168.1.5", Example.docA, none⟩ ∧
      r.1[1]? = some ⟨"192.168.1.9", "", some "nmap failed: signal: killed\nstderr: "⟩ :=
  have h := ScanHosts_positional Example.env Example.cfg (NewRunner Example.env "")
    Example.live
  ⟨by decide, by decide, by decide, h.2.2.2.1 (by decide) "192.168.1.9",
    fun sched r hr =>
      have h1 := h.2.1 sched r hr
      ⟨h1.1, h1.2.1, h1.2.2 0 (by decide), h1.2.2 1 (by decide)⟩⟩

end scan
end Ndscan
namespace Ndscan
namespace scan

/-! ## Host discovery -/

theorem foldl_liveStep (ls : List String) : ∀ acc : List String,
    ls.foldl liveStep acc = acc ++ ls.filterMap (fun ln =>
      if Contains ln "Status: Up" then
        match Fields ln with
        | p0 :: p1 :: _ => if p0 = "Host:" then some p1 else none
        | _ => none
      else none) := by
  induction ls with
  | nil => intro acc; simp
  | cons ln ls ih =>
    intro acc
    rw [List.foldl_cons, ih, List.filterMap_cons]
    unfold liveStep
    by_cases hc : Contains ln "Status: Up" = true
    · simp only [hc, if_true]
      cases hf : Fields ln with
      | nil => simp
      | cons p0 t =>
        cases t with
        | nil => simp
        | cons p1 t2 =>
          by_cases hp : p0 = "Host:"
          · simp [hp]
          · simp [hp]
    · simp [hc]

/-- C2, the claim as stated fails: a line can contain the marker `Status: Up` and
contribute no host, here because `Host:` is not its first field. -/
theorem HostDiscovery_marker_counterexample :
    Contains "Nmap scan report Host: 192.168.1.5 Status: Up" "Status: Up" = true ∧
    Contains "Nmap scan report Host: 192.168.1.5 Status: Up" "Host:" = true ∧
    parseLive "Nmap scan report Host: 192.168.1.5 Status: Up" = [] ∧
    Contains "# Status: Up" "Status: Up" = true ∧ parseLive "# Status: Up" = [] ∧
    (HostDiscovery Example.env ["192.168.1.0/24"]
      ⟨false, fun _ _ => ⟨"# Status: Up", none⟩⟩).val = .ok [] :=
  ⟨by decide, by decide, by decide, by decide, by decide, rfl⟩

/-- C2 as amended: `HostDiscovery` returns, in line order, one entry for each line of the
tool output that contains `Status: Up` and whose first whitespace-separated field is
`Host:` followed by at least one more field, the entry being that second field; every
other line contributes nothing.  The line of the specification yields `192.168.1.5`. -/
theorem HostDiscovery_live (env : Env) (targets : List String) (runner : Runner) :
    (HostDiscovery env targets runner).val =
      (if runner.isLocal && !env.lookPathNmap then .error "nmap not found in PATH"
       else
        match (runner.Run "nmap" (["-sn", "-oG", "-"] ++ targets)).err with
        | some e => .error ("host discovery failed: " ++ e)
        | none =>
          .ok ((Split (runner.Run "nmap" (["-sn", "-oG", "-"] ++ targets)).out '\n').filterMap
            (fun ln =>
              if Contains ln "Status: Up" then
                match Fields ln with
                | p0 :: p1 :: _ => if p0 = "Host:" then some p1 else none
                | _ => none
              else none))) ∧
    parseLive "Host: 192.168.1.5 (unknown)  Status: Up" = ["192.168.1.5"] ∧
    parseLive "Host: 192.168.1.5 (unknown)  Status: Down" = [] := by
  refine ⟨?_, by decide, by decide⟩
  unfold HostDiscovery
  by_cases hc : (runner.isLocal && !env.lookPathNmap) = true
  · simp only [hc, if_true]
  · simp only [hc]
    cases he : (runner.Run "nmap" (["-sn", "-oG", "-"] ++ targets)).err with
    | some e => simp [he]
    | none =>
      simp only [he, parseLive, foldl_liveStep, List.nil_append]
      rfl

end scan
end Ndscan
namespace Ndscan
namespace ui

/-! ## Merging rows -/

theorem mapGet_none {m : List (String × Row)} {k : String} (h : mapGet m k = none) :
    k ∉ m.map Prod.fst := by
  unfold mapGet at h
  cases hf : m.find? (fun e => decide (e.1 = k)) with
  | some e => simp [hf] at h
  | none =>
    intro hm
    rcases List.mem_map.1 hm with ⟨e, he, rfl⟩
    have := List.find?_eq_none.1 hf e he
    simp at this

theorem mapGet_some {m : List (String × Row)} {k : String} {v : Row}
    (h : mapGet m k = some v) : (k, v) ∈ m := by
  unfold mapGet at h
  cases hf : m.find? (fun e => decide (e.1 = k)) with
  | none => simp [hf] at h
  | some e =>
    simp only [hf, Option.some.injEq] at h
    have h1 := List.find?_some hf
    have h2 := List.mem_of_find?_eq_some hf
    simp only [decide_eq_true_eq] at h1
    subst h
    subst h1
    exact h2

theorem mapSet_absent {m : List (String × Row)} {k : String} (v : Row)
    (h : k ∉ m.map Prod.fst) : mapSet m k v = m ++ [(k, v)] := by
  unfold mapSet
  have : m.any (fun e => decide (e.1 = k)) = false := by
    rw [List.any_eq_false]
    intro e he hk
    simp only [decide_eq_true_eq] at hk
    exact h (List.mem_map.2 ⟨e, he, hk⟩)
  simp [this]

theorem mapSet_present {m : List (String × Row)} {k : String} (v : Row)
    (h : k ∈ m.map Prod.fst) :
    mapSet m k v = m.map (fun e => if e.1 = k then (k, v) else e) := by
  unfold mapSet
  have : m.any (fun e => decide (e.1 = k)) = true := by
    rw [List.any_eq_true]
    rcases List.mem_map.1 h with ⟨e, he, hk⟩
    exact ⟨e, he, by simpa using hk⟩
  simp [this]

theorem mergedOf_snoc_ne {rows : List Row} {x : Row} {k : String} (h : key x ≠ k) :
    mergedOf (rows ++ [x]) k = mergedOf rows k := by
  unfold mergedOf
  have hx : decide (key x = k) = false := by simpa using h
  rw [List.find?_append, List.filter_append]
  simp only [List.find?_cons, hx, List.find?_nil, List.filter_cons, List.filter_nil,
    List.append_nil, Option.or_none]
  simp

theorem mergedOf_snoc_new {rows : List Row} {x : Row}
    (h : mergedOf rows (key x) = none) : mergedOf (rows ++ [x]) (key x) = some x := by
  unfold mergedOf at h ⊢
  cases hf : rows.find? (fun y => decide (key y = key x)) with
  | some r0 => simp [hf] at h
  | none =>
    have hfil : rows.filter (fun y => decide (key y = key x)) = [] := by
      rw [List.filter_eq_nil_iff]
      intro a ha
      exact List.find?_eq_none.1 hf a ha
    rw [List.find?_append, List.filter_append, hf, hfil]
    simp

theorem mergedOf_snoc_old {rows : List Row} {x ex : Row}
    (h : mergedOf rows (key x) = some ex) :
    mergedOf (rows ++ [x]) (key x) = some { ex with Ports := ex.Ports ++ x.Ports } := by
  unfold mergedOf at h ⊢
  cases hf : rows.find? (fun y => decide (key y = key x)) with
  | none => simp [hf] at h
  | some r0 =>
    simp only [hf, Option.some.injEq] at h
    subst h
    rw [List.find?_append, List.filter_append, hf]
    simp

theorem mergeStep_inv {m : List (String × Row)} {rows : List Row} (x : Row)
    (h : MergeInv m rows) : MergeInv (mergeStep m x) (rows ++ [x]) := by
  cases hg : mapGet m (key x) with
  | none =>
    have hstep : mergeStep m x = mapSet m (key x) x := by simp only [mergeStep, hg]
    rw [hstep]
    have hk := mapGet_none hg
    have hnew : mergedOf rows (key x) = none := by
      cases hm : mergedOf rows (key x) with
      | none => rfl
      | some r =>
        exfalso
        unfold mergedOf at hm
        cases hf : rows.find? (fun y => decide (key y = key x)) with
        | none => simp [hf] at hm
        | some r0 =>
          have h1 := List.find?_some hf
          have h2 := List.mem_of_find?_eq_some hf
          simp only [decide_eq_true_eq] at h1
          exact hk (h1 ▸ h.seen r0 h2)
    rw [mapSet_absent x hk]
    refine ⟨?_, ?_, ?_⟩
    · simp only [List.map_append, List.map_cons, List.map_nil]
      refine List.Nodup.append h.nodup (List.nodup_singleton _) ?_
      intro a ha hb
      simp only [List.mem_singleton] at hb
      exact hk (hb ▸ ha)
    · intro e he
      rcases List.mem_append.1 he with h1 | h1
      · have hne : key x ≠ e.1 := by
          intro heq
          exact hk (heq ▸ List.mem_map.2 ⟨e, h1, rfl⟩)
        rw [mergedOf_snoc_ne hne]
        exact h.merged e h1
      · simp only [List.mem_singleton] at h1
        subst h1
        exact mergedOf_snoc_new hnew
    · intro r hr
      simp only [List.map_append, List.map_cons, List.map_nil, List.mem_append,
        List.mem_singleton]
      rcases List.mem_append.1 hr with h1 | h1
      · exact Or.inl (h.seen r h1)
      · simp only [List.mem_singleton] at h1
        exact Or.inr (by rw [h1])
  | some ex =>
    have hstep : mergeStep m x =
        mapSet m (key x) { ex with Ports := ex.Ports ++ x.Ports } := by
      simp only [mergeStep, hg]
    rw [hstep]
    have hmem := mapGet_some hg
    have hk : key x ∈ m.map Prod.fst := List.mem_map.2 ⟨_, hmem, rfl⟩
    have hold := h.merged _ hmem
    rw [mapSet_present _ hk]
    have hkeys : (m.map (fun e => if e.1 = key x then
        (key x, { ex with Ports := ex.Ports ++ x.Ports }) else e)).map Prod.fst
        = m.map Prod.fst := by
      rw [List.map_map]
      apply List.map_congr_left
      intro e _
      by_cases he : e.1 = key x
      · simp [he]
      · simp [he]
    refine ⟨?_, ?_, ?_⟩
    · rw [hkeys]; exact h.nodup
    · intro e he
      rcases List.mem_map.1 he with ⟨e0, he0, rfl⟩
      by_cases hk0 : e0.1 = key x
      · simp only [hk0, if_true]
        exact mergedOf_snoc_old hold
      · simp only [hk0, if_false]
        rw [mergedOf_snoc_ne (fun heq => hk0 heq.symm)]
        exact h.merged e0 he0
    · intro r hr
      rw [hkeys]
      rcases List.mem_append.1 hr with h1 | h1
      · exact h.seen r h1
      · simp only [List.mem_singleton] at h1
        rw [h1]; exact hk

theorem foldl_mergeStep_inv (rows : List Row) : MergeInv (rows.foldl mergeStep []) rows := by
  induction rows using List.reverseRecOn with
  | nil => exact ⟨by simp, by simp, by simp⟩
  | append_singleton l a ih =>
    rw [List.foldl_append]
    exact mergeStep_inv a ih

theorem foldl_snoc_snd (l : List (String × Row)) : ∀ acc : List Row,
    l.foldl (fun out e => out ++ [e.2]) acc = acc ++ l.map Prod.snd := by
  induction l with
  | nil => intro acc; simp
  | cons e l ih => intro acc; simp [ih]

/-- The output of `mergePorts` is, up to order, the list of values of the map. -/
theorem mergePorts_perm {rt : Runtime} (hrt : rt.Lawful) (rows : List Row) :
    (mergePorts rt rows).Perm ((rows.foldl mergeStep []).map Prod.snd) := by
  unfold mergePorts
  simp only [foldl_snoc_snd, List.nil_append]
  exact (hrt.2.1 _ _).trans ((hrt.1 _).map _)

theorem mergedOf_key {rows : List Row} {k : String} {r : Row}
    (h : mergedOf rows k = some r) : key r = k := by
  unfold mergedOf at h
  cases hf : rows.find? (fun y => decide (key y = k)) with
  | none => simp [hf] at h
  | some r0 =>
    simp only [hf, Option.some.injEq] at h
    have h1 := List.find?_some hf
    simp only [decide_eq_true_eq] at h1
    subst h
    simpa [key] using h1

end ui
end Ndscan
namespace Ndscan
namespace ui

theorem mergedOf_some_mem {rows : List Row} {k : String} {r : Row}
    (h : mergedOf rows k = some r) : k ∈ rows.map key := by
  unfold mergedOf at h
  cases hf : rows.find? (fun y => decide (key y = k)) with
  | none => simp [hf] at h
  | some r0 =>
    have h1 := List.find?_some hf
    have h2 := List.mem_of_find?_eq_some hf
    simp only [decide_eq_true_eq] at h1
    exact List.mem_map.2 ⟨r0, h2, h1⟩

theorem MergeInv.keys_iff {m : List (String × Row)} {rows : List Row} (h : MergeInv m rows)
    (k : String) : k ∈ m.map Prod.fst ↔ k ∈ rows.map key := by
  constructor
  · intro hk
    rcases List.mem_map.1 hk with ⟨e, he, rfl⟩
    exact mergedOf_some_mem (h.merged e he)
  · intro hk
    rcases List.mem_map.1 hk with ⟨r, hr, rfl⟩
    exact h.seen r hr

theorem MergeInv.count_key {m : List (String × Row)} {rows : List Row} (h : MergeInv m rows)
    (k : String) :
    ((m.map Prod.snd).filter (fun r => decide (key r = k))).length =
      if k ∈ rows.map key then 1 else 0 := by
  have h1 : (m.map Prod.snd).filter (fun r => decide (key r = k)) =
      (m.filter (fun e => decide (e.1 = k))).map Prod.snd := by
    rw [List.filter_map]
    congr 1
    apply List.filter_congr
    intro e he
    simp only [Function.comp, mergedOf_key (h.merged e he)]
  have h2 : (m.filter (fun e => decide (e.1 = k))).length = (m.map Prod.fst).count k := by
    rw [List.count_eq_countP, List.countP_map, List.countP_eq_length_filter]
    congr 1
  rw [h1, List.length_map, h2, List.count_eq_of_nodup h.nodup]
  simp only [h.keys_iff k]

/-- C3: whatever the map iteration order and the sort do, `mergePorts` returns one Row
per distinct identity key of the input (and no other Row); the Row of a key is the first
input Row with that key (its IP, MAC, hostname, up flag) with the port lists of all
input Rows of that key concatenated in input order, without deduplication.  Two Rows
with one key merge into one Row whose ports are the first list followed by the second,
so a Row listed twice has its ports duplicated. -/
theorem mergePorts_one_row_per_key (rt : Runtime) (hrt : rt.Lawful) (rows : List Row) :
    (mergePorts rt rows).length = (rows.map key).dedup.length ∧
    (∀ k, ((mergePorts rt rows).filter (fun r => key r = k)).length =
      if k ∈ rows.map key then 1 else 0) ∧
    (∀ r ∈ mergePorts rt rows, ∃ r0,
      rows.find? (fun x => key x = key r) = some r0 ∧
      r = { r0 with Ports := (rows.filter (fun x => key x = key r)).flatMap Row.Ports }) ∧
    (∀ a b : Row, key a = key b →
      mergePorts rt [a, b] = [{ a with Ports := a.Ports ++ b.Ports }]) := by
  have hinv := foldl_mergeStep_inv rows
  have hperm := mergePorts_perm hrt rows
  refine ⟨?_, ?_, ?_, ?_⟩
  · rw [hperm.length_eq, List.length_map, ← List.length_map _ Prod.fst]
    apply List.Perm.length_eq
    rw [List.perm_ext_iff_of_nodup hinv.nodup (List.nodup_dedup _)]
    intro k
    rw [hinv.keys_iff k, List.mem_dedup]
  · intro k
    rw [(hperm.filter _).length_eq]
    exact hinv.count_key k
  · intro r hr
    rcases List.mem_map.1 (hperm.mem_iff.1 hr) with ⟨e, he, rfl⟩
    have hm := hinv.merged e he
    have hk := mergedOf_key hm
    rw [← hk] at hm
    unfold mergedOf at hm
    cases hf : rows.find? (fun y => decide (key y = key e.2)) with
    | none => simp [hf] at hm
    | some r0 =>
      simp only [hf, Option.some.injEq] at hm
      exact ⟨r0, rfl, hm.symm⟩
  · intro a b hab
    have hp := mergePorts_perm hrt [a, b]
    have hm : [a, b].foldl mergeStep [] =
        [(key b, { a with Ports := a.Ports ++ b.Ports })] := by
      simp [mergeStep, mapGet, mapSet, hab]
    rw [hm] at hp
    simpa using hp

/-- C3 at the rows of the specification: ports `22/tcp ssh` and `80/tcp http` under one
key give one Row with both labels, in that order. -/
theorem mergePorts_one_row_per_key_witness :
    Runtime.forward.Lawful ∧
    mergePorts Runtime.forward
      [⟨"192.168.1.5", "", "", "", true, ["22/tcp ssh"]⟩,
       ⟨"192.168.1.5", "", "", "", true, ["80/tcp http"]⟩] =
      [⟨"192.168.1.5", "", "", "", true, ["22/tcp ssh", "80/tcp http"]⟩] :=
  ⟨Runtime.forward_lawful,
    (mergePorts_one_row_per_key Runtime.forward Runtime.forward_lawful []).2.2.2
      ⟨"192.168.1.5", "", "", "", true, ["22/tcp ssh"]⟩
      ⟨"192.168.1.5", "", "", "", true, ["80/tcp http"]⟩ (by decide)⟩

end ui
end Ndscan
namespace Ndscan
namespace ui

/-! ## The order of the merged rows -/

/-- C4, evaluated at two scans of the same address of which only one reports the
hardware address: the two Rows have different identity keys and equal network
addresses, and their order in the output follows the map iteration order of the run. -/
theorem flatten_order_follows_map_iteration :
    Runtime.forward.Lawful ∧ Runtime.backward.Lawful ∧
    flatten Example.env Runtime.forward Example.twoScans =
      [Example.rowNoMac, Example.rowMac] ∧
    flatten Example.env Runtime.backward Example.twoScans =
      [Example.rowMac, Example.rowNoMac] ∧
    flatten Example.env Runtime.forward Example.twoScans ≠
      flatten Example.env Runtime.backward Example.twoScans :=
  ⟨Runtime.forward_lawful, Runtime.backward_lawful, by decide, by decide, by decide⟩

end ui
end Ndscan
namespace Ndscan
namespace cmd

open scan ui

/-! ## The pre-run hook and the run of the command -/

theorem HostDiscovery_calls {env : Env} {runner : Runner} (targets : List String)
    (h : (runner.isLocal && !env.lookPathNmap) = false) :
    (HostDiscovery env targets runner).calls = [("nmap", ["-sn", "-oG", "-"] ++ targets)] := by
  unfold HostDiscovery
  simp only [h]
  cases (runner.Run "nmap" (["-sn", "-oG", "-"] ++ targets)).err <;> rfl

/-- Whenever `RunE` gets past its argument check and the tool check, the first runner
invocation it makes is the host discovery over the targets. -/
theorem RunE_calls {env : Env} {rt : Runtime} {sched : List Event} {f : Flags}
    {a0 : String} {rest : List String} {r : CmdResult}
    (hargs : (looksLikeSSHTarget a0 && rest.isEmpty) = false)
    (htool : looksLikeSSHTarget a0 = true ∨ env.lookPathNmap = true)
    (hr : RunE env rt sched f (a0 :: rest) = some r) :
    r.stderr = [] ∧
    r.calls.head? = some ("nmap", ["-sn", "-oG", "-"] ++
      (if looksLikeSSHTarget a0 then rest else a0 :: rest)) := by
  have hpre : ((NewRunner env (if looksLikeSSHTarget a0 then a0 else "")).isLocal &&
      !env.lookPathNmap) = false := by
    rcases htool with h | h
    · have hne : a0 ≠ "" := by
        intro h0
        subst h0
        revert h
        decide
      simp [NewRunner, h, hne]
    · simp [h]
  have hc := HostDiscovery_calls (if looksLikeSSHTarget a0 then rest else a0 :: rest) hpre
  simp only [RunE, hargs] at hr
  revert hr
  simp only [Bool.false_eq_true, if_false]
  split
  · intro hr
    cases hr
    exact ⟨rfl, by rw [hc]; rfl⟩
  · split
    · intro hr
      cases hr
      exact ⟨rfl, by rw [hc]; rfl⟩
    · split
      · intro hr; cases hr
      · intro hr
        cases hr
        exact ⟨rfl, by rw [hc]; rfl⟩
      · split
        · intro hr
          cases hr
          exact ⟨rfl, by rw [hc]; rfl⟩
        · split
          · intro hr
            cases hr
            exact ⟨rfl, by rw [hc]; rfl⟩
          · intro hr
            cases hr
            exact ⟨rfl, by rw [hc]; rfl⟩

/-- For every argument list there is an interleaving under which `RunE` completes. -/
theorem RunE_exists (env : Env) (rt : Runtime) (f : Flags) (a0 : String)
    (rest : List String) : ∃ sched r, RunE env rt sched f (a0 :: rest) = some r := by
  by_cases hargs : (looksLikeSSHTarget a0 && rest.isEmpty) = true
  · exact ⟨[], ⟨.failed "no scan targets provided after SSH target", [], []⟩,
      by simp only [RunE, hargs, if_true]⟩
  · cases hd : (HostDiscovery env (if looksLikeSSHTarget a0 then rest else a0 :: rest)
        (NewRunner env (if looksLikeSSHTarget a0 then a0 else ""))).val with
    | error e => exact ⟨[], _, by simp only [RunE, hargs, hd]; rfl⟩
    | ok live =>
      by_cases hl : live.length = 0
      · exact ⟨[], _, by simp only [RunE, hargs, hd, hl]; rfl⟩
      · obtain ⟨sched, hs⟩ := ScanHosts_exists env live (mkConfig f)
          (NewRunner env (if looksLikeSSHTarget a0 then a0 else ""))
        refine ⟨sched, ?_⟩
        simp only [RunE, hargs, hd, hl, hs, Bool.false_eq_true, if_false]
        split
        · exact ⟨_, rfl⟩
        · split
          · exact ⟨_, rfl⟩
          · exact ⟨_, rfl⟩

/-- The first runner invocation of `RunE`, in every case: none when the only argument is
an SSH target or when the local tool check fails, the host discovery otherwise. -/
theorem RunE_first_call {env : Env} {rt : Runtime} {sched : List Event} {f : Flags}
    {a0 : String} {rest : List String} {r : CmdResult}
    (hr : RunE env rt sched f (a0 :: rest) = some r) :
    r.stderr = [] ∧
    r.calls.head? =
      if (looksLikeSSHTarget a0 && rest.isEmpty) ||
          (!looksLikeSSHTarget a0 && !env.lookPathNmap) then none
      else some ("nmap", ["-sn", "-oG", "-"] ++
        (if looksLikeSSHTarget a0 then rest else a0 :: rest)) := by
  by_cases hargs : (looksLikeSSHTarget a0 && rest.isEmpty) = true
  · simp only [RunE, hargs, if_true, Option.some.injEq] at hr
    subst hr
    simp [hargs]
  · have hargs2 : (looksLikeSSHTarget a0 && rest.isEmpty) = false := by simpa using hargs
    by_cases htool : (!looksLikeSSHTarget a0 && !env.lookPathNmap) = true
    · have hssh : looksLikeSSHTarget a0 = false := by
        cases h : looksLikeSSHTarget a0 <;> simp [h] at htool ⊢
      have hlook : env.lookPathNmap = false := by
        cases h : env.lookPathNmap <;> simp [h] at htool ⊢
      have hd : HostDiscovery env (a0 :: rest) (NewRunner env "") =
          ⟨.error "nmap not found in PATH", []⟩ := by
        simp [HostDiscovery, NewRunner, hlook]
      simp only [RunE, hssh, Bool.false_and, Bool.false_eq_true, if_false, hd,
        Option.some.injEq] at hr
      subst hr
      simp [hssh, hlook]
    · have htool2 : looksLikeSSHTarget a0 = true ∨ env.lookPathNmap = true := by
        cases h1 : looksLikeSSHTarget a0 <;> cases h2 : env.lookPathNmap <;>
          simp [h1, h2] at htool ⊢
      have hfalse : ((looksLikeSSHTarget a0 && rest.isEmpty) ||
          (!looksLikeSSHTarget a0 && !env.lookPathNmap)) = false := by
        have h3 : (!looksLikeSSHTarget a0 && !env.lookPathNmap) = false := by
          simpa using htool
        rw [hargs2, h3]
        rfl
      have := RunE_calls hargs2 htool2 hr
      rw [hfalse]
      exact ⟨this.1, by simpa using this.2⟩

/-- C5, the claim as stated fails: with `--show-vendors` and without `--show-mac` the
pre-run hook returns no error, and the command goes on to invoke the external tool for
host discovery and for the scan of each live host. -/
theorem PreRunE_vendor_counterexample :
    Example.flags.showVendors = true ∧ Example.flags.showMac = false ∧
    (PreRunE Example.flags).err = none ∧
    (scanCmd Example.env Runtime.forward [.start, .start, .finish 1, .finish 0]
        Example.flags ["192.168.1.0/24"]).map (fun r => r.calls) =
      some [("nmap", ["-sn", "-oG", "-", "192.168.1.0/24"]),
        ("nmap", ["-oX", "-", "-Pn", "-sT", "-T4", "-F", "--host-timeout", "20s",
          "--max-retries", "1", "--min-rate", "200", "192.168.1.5"]),
        ("nmap", ["-oX", "-", "-Pn", "-sT", "-T4", "-F", "--host-timeout", "20s",
          "--max-retries", "1", "--min-rate", "200", "192.168.1.9"])] := by
  decide

/-- C5 as amended: with vendor enrichment requested and address resolution not, the
pre-run hook does not reject the combination.  It fails only when both view aliases are
set, with the error about the aliases, no warning and no invocation.  Otherwise it
writes the warning that vendors will be skipped to standard error and returns no error,
and the command goes on to `RunE`, which runs as for any scan and completes under some
interleaving: its first external invocation is the host discovery over the targets,
unless one of its own checks stops the run first (the only argument is an SSH target, or
the runner is local and `nmap` is not on the search path), in which case nothing is
invoked. -/
theorem PreRunE_vendor_warning (f : Flags) (hv : f.showVendors = true)
    (hm : f.showMac = false) :
    ((f.flagTB && f.flagTR) = true →
      PreRunE f = ⟨f.view, [], some "choose one: -tb (table) OR -tr (tree), not both"⟩ ∧
      ∀ (env : Env) (rt : Runtime) (sched : List Event) (a0 : String) (rest : List String),
        scanCmd env rt sched f (a0 :: rest) =
          some ⟨.failed "choose one: -tb (table) OR -tr (tree), not both", [], []⟩) ∧
    ((f.flagTB && f.flagTR) = false →
      (PreRunE f).err = none ∧ (PreRunE f).stderr = [vendorWarning] ∧
      ∀ (env : Env) (rt : Runtime) (a0 : String) (rest : List String),
        (∀ sched, scanCmd env rt sched f (a0 :: rest) =
          (RunE env rt sched { f with view := (PreRunE f).view } (a0 :: rest)).map
            (fun r => { r with stderr := vendorWarning :: r.stderr })) ∧
        (∃ sched r, scanCmd env rt sched f (a0 :: rest) = some r) ∧
        ∀ sched r, scanCmd env rt sched f (a0 :: rest) = some r →
          r.stderr = [vendorWarning] ∧
          r.calls.head? =
            if (looksLikeSSHTarget a0 && rest.isEmpty) ||
                (!looksLikeSSHTarget a0 && !env.lookPathNmap) then none
            else some ("nmap", ["-sn", "-oG", "-"] ++
              (if looksLikeSSHTarget a0 then rest else a0 :: rest))) := by
  refine ⟨?_, ?_⟩
  · intro hview
    have hpre : PreRunE f =
        ⟨f.view, [], some "choose one: -tb (table) OR -tr (tree), not both"⟩ := by
      simp only [PreRunE, hview, if_true]
    refine ⟨hpre, ?_⟩
    intro env rt sched a0 rest
    simp only [scanCmd, List.length_cons, hpre]
    rfl
  · intro hview
    have herr : (PreRunE f).err = none := by simp [PreRunE, hview]
    have hst : (PreRunE f).stderr = [vendorWarning] := by simp [PreRunE, hview, hv, hm]
    refine ⟨herr, hst, ?_⟩
    intro env rt a0 rest
    have hcmd : ∀ sched, scanCmd env rt sched f (a0 :: rest) =
        (RunE env rt sched { f with view := (PreRunE f).view } (a0 :: rest)).map
          (fun r => { r with stderr := vendorWarning :: r.stderr }) := by
      intro sched
      simp only [scanCmd, List.length_cons, herr, hst]
      cases RunE env rt sched { f with view := (PreRunE f).view } (a0 :: rest) <;> rfl
    refine ⟨hcmd, ?_, ?_⟩
    · obtain ⟨sched, r, hr⟩ :=
        RunE_exists env rt { f with view := (PreRunE f).view } a0 rest
      exact ⟨sched, _, by rw [hcmd, hr]; rfl⟩
    · intro sched r hr
      rw [hcmd] at hr
      cases hrun : RunE env rt sched { f with view := (PreRunE f).view } (a0 :: rest) with
      | none => simp [hrun] at hr
      | some r0 =>
        simp only [hrun, Option.map_some', Option.some.injEq] at hr
        subst hr
        have := RunE_first_call hrun
        exact ⟨by simp [this.1], this.2⟩

/-- C5 as amended, at the example flags: the hook only warns; a local scan of one network
completes and starts with the host discovery; with an SSH target as the only argument,
or without `nmap` on the machine, the warning is printed and nothing is invoked. -/
theorem PreRunE_vendor_warning_witness :
    Example.flags.showVendors = true ∧ Example.flags.showMac = false ∧
    (Example.flags.flagTB && Example.flags.flagTR) = false ∧
    (PreRunE Example.flags).err = none ∧
    (PreRunE Example.flags).stderr = [vendorWarning] ∧
    (∃ sched r, scanCmd Example.env Runtime.forward sched Example.flags ["192.168.1.0/24"] =
      some r) ∧
    (∀ sched r, scanCmd Example.env Runtime.forward sched Example.flags ["192.168.1.0/24"] =
        some r →
      r.stderr = [vendorWarning] ∧
      r.calls.head? = some ("nmap", ["-sn", "-oG", "-", "192.168.1.0/24"])) ∧
    (∀ sched r, scanCmd Example.env Runtime.forward sched Example.flags ["user@host"] =
        some r →
      r.stderr = [vendorWarning] ∧ r.calls.head? = none) ∧
    (∀ sched r, scanCmd Example.envNoTool Runtime.forward sched Example.flags
        ["192.168.1.0/24"] = some r →
      r.stderr = [vendorWarning] ∧ r.calls.head? = none) :=
  have h := (PreRunE_vendor_warning Example.flags (by decide) (by decide)).2 (by decide)
  ⟨by decide, by decide, by decide, h.1, h.2.1,
    (h.2.2 Example.env Runtime.forward "192.168.1.0/24" []).2.1,
    fun sched r hr =>
      have h1 := (h.2.2 Example.env Runtime.forward "192.168.1.0/24" []).2.2 sched r hr
      ⟨h1.1, h1.2.trans (by decide)⟩,
    fun sched r hr =>
      have h1 := (h.2.2 Example.env Runtime.forward "user@host" []).2.2 sched r hr
      ⟨h1.1, h1.2.trans (by decide)⟩,
    fun sched r hr =>
      have h1 := (h.2.2 Example.envNoTool Runtime.forward "192.168.1.0/24" []).2.2 sched r hr
      ⟨h1.1, h1.2.trans (by decide)⟩⟩

end cmd
end Ndscan
namespace Ndscan
namespace ui

open scan

/-! ## Flattening parsed hosts into rows -/

theorem foldl_addrStep_keeps (as : List Address) : ∀ row : Row,
    (as.foldl addrStep row).Host = row.Host ∧ (as.foldl addrStep row).Up = row.Up ∧
    (as.foldl addrStep row).Ports = row.Ports := by
  induction as with
  | nil => intro row; exact ⟨rfl, rfl, rfl⟩
  | cons a as ih =>
    intro row
    rw [List.foldl_cons]
    have h := ih (addrStep row a)
    have h2 : (addrStep row a).Host = row.Host ∧ (addrStep row a).Up = row.Up ∧
        (addrStep row a).Ports = row.Ports := by
      unfold addrStep
      split
      · exact ⟨rfl, rfl, rfl⟩
      · split <;> exact ⟨rfl, rfl, rfl⟩
    exact ⟨h.1.trans h2.1, h.2.1.trans h2.2.1, h.2.2.trans h2.2.2⟩

theorem foldl_portStep (ps : List Port) : ∀ row : Row,
    ps.foldl portStep row =
      { row with Ports := row.Ports ++
          (ps.filter (fun p => decide (p.State.State = "open"))).map portLabel } := by
  induction ps with
  | nil => intro row; simp
  | cons p ps ih =>
    intro row
    rw [List.foldl_cons, ih]
    unfold portStep
    by_cases hp : p.State.State = "open"
    · simp [hp]
    · simp [hp]

theorem hostRow_Ports (h : Host) :
    (hostRow h).Ports =
      (h.Ports.List.filter (fun p => decide (p.State.State = "open"))).map portLabel := by
  unfold hostRow
  simp only [foldl_portStep]
  cases h.Hostnames.Names with
  | nil => simp [(foldl_addrStep_keeps h.Addresses _).2.2]
  | cons n ns => simp [(foldl_addrStep_keeps h.Addresses _).2.2]

theorem hostRow_Host (h : Host) :
    (hostRow h).Host =
      match h.Hostnames.Names with
      | n :: _ => n.Name
      | [] => "" := by
  unfold hostRow
  simp only [foldl_portStep]
  cases h.Hostnames.Names with
  | nil => simp [(foldl_addrStep_keeps h.Addresses _).1]
  | cons n ns => simp

theorem hostRow_Up (h : Host) : (hostRow h).Up = decide (h.Status.State = "up") := by
  unfold hostRow
  simp only [foldl_portStep]
  cases h.Hostnames.Names with
  | nil => simp [(foldl_addrStep_keeps h.Addresses _).2.1]
  | cons n ns => simp [(foldl_addrStep_keeps h.Addresses _).2.1]

theorem foldl_hostRow (hs : List Host) : ∀ out : List Row,
    hs.foldl (fun out h => out ++ [hostRow h]) out = out ++ hs.map hostRow := by
  induction hs with
  | nil => intro out; simp
  | cons h hs ih => intro out; simp [ih]

/-- The rows that one `HostResult` contributes before the merge. -/
theorem flattenStep_eq (env : Env) (out : List Row) (r : HostResult) :
    flattenStep env out r = out ++
      (if r.Err ≠ none ∨ r.XMLBytes = "" then []
       else
        match ParseOne env r.XMLBytes with
        | .ok nr => nr.Hosts.map hostRow
        | .error _ => []) := by
  unfold flattenStep
  by_cases hb : r.Err ≠ none ∨ r.XMLBytes = ""
  · simp only [if_pos hb, List.append_nil]
  · simp only [if_neg hb]
    cases ParseOne env r.XMLBytes with
    | error e => simp
    | ok nr => simp [foldl_hostRow]

theorem foldl_flattenStep (env : Env) (res : List HostResult) : ∀ out : List Row,
    res.foldl (flattenStep env) out = out ++ res.flatMap (fun r =>
      if r.Err ≠ none ∨ r.XMLBytes = "" then []
      else
        match ParseOne env r.XMLBytes with
        | .ok nr => nr.Hosts.map hostRow
        | .error _ => []) := by
  induction res with
  | nil => intro out; simp
  | cons r res ih =>
    intro out
    rw [List.foldl_cons, ih, flattenStep_eq, List.flatMap_cons, List.append_assoc]

/-- Whatever the run does, a single row is returned as it is. -/
theorem mergePorts_singleton {rt : Runtime} (hrt : rt.Lawful) (x : Row) :
    mergePorts rt [x] = [x] := by
  have hp := mergePorts_perm hrt [x]
  have hm : [x].foldl mergeStep [] = [(key x, x)] := by
    simp [mergeStep, mapGet, mapSet]
  rw [hm] at hp
  simpa using hp

end ui
end Ndscan
namespace Ndscan
namespace ui

open scan

theorem flatMap_filter_of_nil {α β : Type} (p : α → Bool) (g : α → List β)
    (h : ∀ a, p a = false → g a = []) (l : List α) :
    (l.filter p).flatMap g = l.flatMap g := by
  induction l with
  | nil => rfl
  | cons a l ih =>
    rw [List.filter_cons, List.flatMap_cons]
    cases hp : p a with
    | true => simp only [if_true, List.flatMap_cons, ih]
    | false =>
      rw [h a hp]
      simpa using ih

theorem flatMap_filter_contributing (env : Env) (res : List HostResult) :
    (res.filter (fun r =>
        decide (r.Err = none) && decide (r.XMLBytes ≠ "") &&
          (match ParseOne env r.XMLBytes with
           | .ok _ => true
           | .error _ => false))).flatMap (fun r =>
      if r.Err ≠ none ∨ r.XMLBytes = "" then []
      else
        match ParseOne env r.XMLBytes with
        | .ok nr => nr.Hosts.map hostRow
        | .error _ => []) =
    res.flatMap (fun r =>
      if r.Err ≠ none ∨ r.XMLBytes = "" then []
      else
        match ParseOne env r.XMLBytes with
        | .ok nr => nr.Hosts.map hostRow
        | .error _ => []) := by
  apply flatMap_filter_of_nil
  intro r hr
  by_cases he : r.Err = none
  · by_cases hx : r.XMLBytes = ""
    · simp [hx]
    · cases hp : ParseOne env r.XMLBytes with
      | error e => simp
      | ok nr => simp [he, hx, hp] at hr
  · simp [he]

/-- C6: a `HostResult` with a non-nil error, with empty output, or whose output fails to
parse contributes nothing: `flatten` gives the same rows once those entries are removed.
When host A's scan parses to one host with `22/tcp ssh` and `80/tcp http` open and host
B's scan failed, the result is the single Row of A, with these two port labels. -/
theorem flatten_skips_failed (env : Env) (rt : Runtime) (res : List HostResult) :
    flatten env rt res = flatten env rt (res.filter (fun r =>
      decide (r.Err = none) && decide (r.XMLBytes ≠ "") &&
        (match ParseOne env r.XMLBytes with
         | .ok _ => true
         | .error _ => false))) ∧
    (∀ (a b : HostResult) (hA : Host), rt.Lawful → a.Err = none → a.XMLBytes ≠ "" →
      ParseOne env a.XMLBytes = .ok ⟨[hA]⟩ → b.Err ≠ none →
      hA.Ports.List =
        [⟨"tcp", 22, ⟨"open"⟩, ⟨"ssh", "", ""⟩⟩,
         ⟨"tcp", 80, ⟨"open"⟩, ⟨"http", "", ""⟩⟩] →
      flatten env rt [a, b] = [hostRow hA] ∧
      (hostRow hA).Ports = ["22/tcp ssh", "80/tcp http"]) := by
  refine ⟨?_, ?_⟩
  · unfold flatten
    simp only [foldl_flattenStep, List.nil_append, flatMap_filter_contributing]
  · intro a b hA hrt ha hx hp hb hports
    refine ⟨?_, ?_⟩
    · unfold flatten
      simp only [foldl_flattenStep, List.nil_append, List.flatMap_cons, List.flatMap_nil]
      simp only [ha, hx, hp, hb, ne_eq, not_true_eq_false, false_or, if_false,
        not_false_eq_true, true_or, if_true, List.map_cons, List.map_nil, List.append_nil]
      exact mergePorts_singleton hrt _
    · rw [hostRow_Ports, hports]
      decide

/-- C6 in the example environment: the scan of `192.168.1.5` succeeded, the scan of
`192.168.1.9` was killed at the deadline. -/
theorem flatten_skips_failed_witness :
    Runtime.forward.Lawful ∧
    flatten Example.env Runtime.forward
      [⟨"192.168.1.5", Example.docA, none⟩,
       ⟨"192.168.1.9", "", some "nmap failed: signal: killed\nstderr: "⟩] =
      [⟨"192.168.1.5", "", "", "", true, ["22/tcp ssh", "80/tcp http"]⟩] :=
  ⟨Runtime.forward_lawful,
    ((flatten_skips_failed Example.env Runtime.forward []).2
      ⟨"192.168.1.5", Example.docA, none⟩
      ⟨"192.168.1.9", "", some "nmap failed: signal: killed\nstderr: "⟩
      ⟨⟨"up"⟩, [⟨"192.168.1.5", "ipv4", ""⟩], ⟨[]⟩, Example.portsA⟩
      Runtime.forward_lawful rfl (by decide) (by simp [ParseOne, Example.env, Example.runA])
      (by decide) rfl).1⟩

end ui
end Ndscan
namespace Ndscan
namespace scan

/-! ## The argument list of the per-host scan -/

theorem ite_append_right (c : Prop) [Decidable c] (a x y : List String) :
    (if c then a ++ x else a ++ y) = a ++ (if c then x else y) := by
  split_ifs <;> rfl

theorem ite_append_opt (c : Prop) [Decidable c] (a x : List String) :
    (if c then a ++ x else a) = a ++ (if c then x else []) := by
  split_ifs <;> simp

theorem ite_not_append_opt (c : Prop) [Decidable c] (a x : List String) :
    (if ¬ c then a ++ x else a) = a ++ (if c then [] else x) := by
  split_ifs <;> simp

theorem ite_singleton (c : Prop) [Decidable c] (x y : String) :
    (if c then [x] else [y]) = [if c then x else y] := by
  split_ifs <;> rfl

/-- C7: unless the local tool check fails (in which case no invocation is made),
`scanOne` invokes the runner exactly once, on `nmap`, with the arguments `-oX - -Pn`,
then `-sS` in privileged mode and `-sT` otherwise, then the flags of the preset (those of
`quick` for an unknown preset), then `-p <ports>` iff the port specification is
non-empty, then `--host-timeout <duration>` iff the timeout is positive, then
`--max-retries 1 --min-rate 200`, and the host last; its result is what the runner
returned. -/
theorem scanOne_args (env : Env) (ip : String) (cfg : Config) (runner : Runner) :
    scanOne env ip cfg runner =
      if runner.isLocal && !env.lookPathNmap then ⟨⟨"", some "nmap not found"⟩, []⟩
      else
        ⟨runner.Run "nmap"
          (["-oX", "-", "-Pn"] ++ [if cfg.UseSYN then "-sS" else "-sT"] ++
            (if cfg.Preset = "default" then ["-T4", "-A"]
             else if cfg.Preset = "udp" then ["-sU", "-T4"]
             else if cfg.Preset = "deep" then ["-T4", "-p", "1-65535", "-A"]
             else ["-T4", "-F"]) ++
            (if cfg.Ports = "" then [] else ["-p", cfg.Ports]) ++
            (if 0 < cfg.HostTimeout then ["--host-timeout", env.durationString cfg.HostTimeout]
             else []) ++
            ["--max-retries", "1", "--min-rate", "200"] ++ [ip]),
         [("nmap",
          ["-oX", "-", "-Pn"] ++ [if cfg.UseSYN then "-sS" else "-sT"] ++
            (if cfg.Preset = "default" then ["-T4", "-A"]
             else if cfg.Preset = "udp" then ["-sU", "-T4"]
             else if cfg.Preset = "deep" then ["-T4", "-p", "1-65535", "-A"]
             else ["-T4", "-F"]) ++
            (if cfg.Ports = "" then [] else ["-p", cfg.Ports]) ++
            (if 0 < cfg.HostTimeout then ["--host-timeout", env.durationString cfg.HostTimeout]
             else []) ++
            ["--max-retries", "1", "--min-rate", "200"] ++ [ip])]⟩ := by
  unfold scanOne
  by_cases hc : (runner.isLocal && !env.lookPathNmap) = true
  · simp only [hc, if_true]
  · simp only [hc]
    have hargs : ∀ (a b : List String), a = b →
        (⟨runner.Run "nmap" a, [("nmap", a)]⟩ : Traced RunOut) =
          ⟨runner.Run "nmap" b, [("nmap", b)]⟩ := by
      intro a b h; rw [h]
    apply hargs
    have hd : cfg.Preset = "quick" → ¬ cfg.Preset = "default" := by
      intro h; rw [h]; decide
    have hu : cfg.Preset = "quick" → ¬ cfg.Preset = "udp" := by
      intro h; rw [h]; decide
    have hp : cfg.Preset = "quick" → ¬ cfg.Preset = "deep" := by
      intro h; rw [h]; decide
    simp only [ite_append_right, ne_eq, ite_not_append_opt, gt_iff_lt, ite_append_opt,
      ite_singleton, List.append_assoc]
    have e1 : (if cfg.Preset = "quick" then ["-T4", "-F"]
        else if cfg.Preset = "default" then ["-T4", "-A"]
        else if cfg.Preset = "udp" then ["-sU", "-T4"]
        else if cfg.Preset = "deep" then ["-T4", "-p", "1-65535", "-A"]
        else ["-T4", "-F"]) =
        (if cfg.Preset = "default" then ["-T4", "-A"]
        else if cfg.Preset = "udp" then ["-sU", "-T4"]
        else if cfg.Preset = "deep" then ["-T4", "-p", "1-65535", "-A"]
        else ["-T4", "-F"]) := by
      by_cases h : cfg.Preset = "quick"
      · rw [if_pos h, if_neg (hd h), if_neg (hu h), if_neg (hp h)]
      · rw [if_neg h]
    have e2 : (if ¬ cfg.Ports = "" then ["-p", cfg.Ports] else []) =
        (if cfg.Ports = "" then [] else ["-p", cfg.Ports]) := by
      split_ifs <;> rfl
    rw [e1, e2]

end scan
end Ndscan
namespace Ndscan
namespace vendor

/-! ## Normalisation of hardware addresses -/

theorem hexDigit_facts : ∀ c ∈ hexDigits,
    isSpace c = false ∧ c.toNat < 128 ∧ isSeparator c = false ∧
    isSeparator c.toUpper = false ∧ c.toUpper ≠ 'X' ∧
    (String.utf8EncodeChar c.toUpper).length = 1 := by
  decide

theorem separator_facts (c : Char) (h : isSeparator c = true) :
    isSpace c = false ∧ c.toNat < 128 ∧ isSeparator c.toUpper = true := by
  simp only [isSeparator, Bool.or_eq_true, beq_iff_eq] at h
  rcases h with (h | h) | h <;> subst h <;> decide

theorem isHexDigit_mem {c : Char} (h : isHexDigit c = true) : c ∈ hexDigits := by
  simpa [isHexDigit] using h

/-- The characters of a spelling are digits and separators, and removing the separators
from its upper-case form gives the upper-case digits. -/
theorem isVariantOf_spec : ∀ (s h : List Char), isVariantOf s h = true →
    (∀ c ∈ s, isSpace c = false ∧ c.toNat < 128) ∧
    (s.map Char.toUpper).filter (fun c => !isSeparator c) = h.map Char.toUpper
  | [], h, hv => by
    simp only [isVariantOf, List.isEmpty_iff] at hv
    subst hv
    simp
  | c :: s, h, hv => by
    simp only [isVariantOf] at hv
    by_cases hs : isSeparator c = true
    · simp only [hs, if_true] at hv
      have ih := isVariantOf_spec s h hv
      have hf := separator_facts c hs
      refine ⟨?_, ?_⟩
      · intro x hx
        rcases List.mem_cons.1 hx with h1 | h1
        · subst h1; exact ⟨hf.1, hf.2.1⟩
        · exact ih.1 x h1
      · simp [List.filter_cons, hf.2.2, ih.2]
    · simp only [hs, Bool.false_eq_true, if_false] at hv
      cases h with
      | nil => simp at hv
      | cons d h' =>
        simp only [Bool.and_eq_true, beq_iff_eq] at hv
        obtain ⟨⟨hc, hcd⟩, hrest⟩ := hv
        have ih := isVariantOf_spec s h' hrest
        have hf := hexDigit_facts c (isHexDigit_mem hc)
        refine ⟨?_, ?_⟩
        · intro x hx
          rcases List.mem_cons.1 hx with h1 | h1
          · subst h1; exact ⟨hf.1, hf.2.1⟩
          · exact ih.1 x h1
        · have hsep : isSeparator d.toUpper = false := hcd ▸ hf.2.2.2.1
          simp [List.filter_cons, hsep, ih.2, hcd]

theorem trimSpaceChars_id {s : List Char} (h : ∀ c ∈ s, isSpace c = false) :
    trimSpaceChars s = s := by
  have hd : ∀ l : List Char, (∀ c ∈ l, isSpace c = false) → l.dropWhile isSpace = l := by
    intro l hl
    cases l with
    | nil => rfl
    | cons a l => simp [List.dropWhile_cons, hl a (List.mem_cons_self _ _)]
  unfold trimSpaceChars
  rw [hd s h, hd s.reverse (fun c hc => h c (List.mem_reverse.1 hc)), List.reverse_reverse]

theorem ToUpper_ascii (env : Env) {s : List Char} (h : ∀ c ∈ s, c.toNat < 128) :
    ToUpper env s = s.map Char.toUpper := by
  unfold ToUpper
  apply List.map_congr_left
  intro c hc
  simp [h c hc]

theorem removeAllGo_single (c : Char) : ∀ s : List Char,
    removeAllGo [c] 0 s = s.filter (fun x => x != c)
  | [] => rfl
  | x :: xs => by
    have ih := removeAllGo_single c xs
    by_cases hx : c = x
    · subst hx
      simp [removeAllGo, startsWith, ih]
    · have hx2 : ¬ x = c := fun h => hx h.symm
      simp [removeAllGo, startsWith, ih, hx, hx2]

theorem removeAllGo_absent (a b : Char) : ∀ s : List Char, b ∉ s →
    removeAllGo [a, b] 0 s = s
  | [], _ => rfl
  | x :: xs, h => by
    have hxs : b ∉ xs := fun hb => h (List.mem_cons_of_mem _ hb)
    have ih := removeAllGo_absent a b xs hxs
    have hsw : startsWith [a, b] (x :: xs) = false := by
      cases xs with
      | nil => simp [startsWith]
      | cons y ys =>
        have : ¬ b = y := fun hby => hxs (hby ▸ List.mem_cons_self _ _)
        simp [startsWith, this]
    simp [removeAllGo, hsw, ih]

theorem flatMap_unit_take {α β : Type} (f : α → List β) (n : Nat) : ∀ l : List α,
    (∀ a ∈ l, (f a).length = 1) →
    (l.flatMap f).length = l.length ∧ (l.flatMap f).take n = (l.take n).flatMap f := by
  induction n with
  | zero => 
    intro l hl
    refine ⟨?_, by simp⟩
    induction l with
    | nil => rfl
    | cons a l ih =>
      simp only [List.flatMap_cons, List.length_append, List.length_cons,
        hl a (List.mem_cons_self _ _)]
      rw [ih (fun b hb => hl b (List.mem_cons_of_mem _ hb))]
      omega
  | succ n ihn =>
    intro l hl
    cases l with
    | nil => simp
    | cons a l =>
      have h1 := hl a (List.mem_cons_self _ _)
      have h2 := ihn l (fun b hb => hl b (List.mem_cons_of_mem _ hb))
      obtain ⟨y, hy⟩ := List.length_eq_one.1 h1
      simp only [List.flatMap_cons, hy, List.singleton_append, List.length_cons, h2.1,
        List.take_succ_cons, h2.2, true_and]

theorem filter_separators (u : List Char) :
    ((u.filter (fun x => x != ':')).filter (fun x => x != '-')).filter (fun x => x != '.') =
      u.filter (fun c => !isSeparator c) := by
  rw [List.filter_filter, List.filter_filter]
  apply List.filter_congr
  intro c _
  cases hA : (c == ':') <;> cases hB : (c == '-') <;> cases hC : (c == '.') <;>
    simp [isSeparator, bne, hA, hB, hC]

/-- The normal form of a spelling of `h`: the first six digits of `h`, in upper case. -/
theorem norm_of_variant (env : Env) (s : String) (h : List Char)
    (hhex : ∀ c ∈ h, isHexDigit c = true) (hlen : 6 ≤ h.length)
    (hv : isVariantOf s.data h = true) :
    norm env s = utf8Bytes ((h.take 6).map Char.toUpper) := by
  obtain ⟨hchars, hfil⟩ := isVariantOf_spec s.data h hv
  have hX : 'X' ∉ h.map Char.toUpper := by
    intro hm
    rcases List.mem_map.1 hm with ⟨c, hc, hcx⟩
    exact (hexDigit_facts c (isHexDigit_mem (hhex c hc))).2.2.2.2.1 hcx
  have hunit : ∀ a ∈ h.map Char.toUpper, (String.utf8EncodeChar a).length = 1 := by
    intro a ha
    rcases List.mem_map.1 ha with ⟨c, hc, rfl⟩
    exact (hexDigit_facts c (isHexDigit_mem (hhex c hc))).2.2.2.2.2
  have hb := flatMap_unit_take String.utf8EncodeChar 6 (h.map Char.toUpper) hunit
  have hsteps : [":", "-", ".", "0X"].foldl (fun s sep => removeAll sep s)
      (s.data.map Char.toUpper) = h.map Char.toUpper := by
    simp only [List.foldl_cons, List.foldl_nil, removeAll]
    rw [removeAllGo_single, removeAllGo_single, removeAllGo_single,
      filter_separators, hfil, removeAllGo_absent _ _ _ hX]
  unfold norm
  simp only [trimSpaceChars_id (fun c hc => (hchars c hc).1),
    ToUpper_ascii env (fun c hc => (hchars c hc).2), hsteps]
  have hlen2 : ¬ (utf8Bytes (h.map Char.toUpper)).length < 6 := by
    unfold utf8Bytes
    rw [hb.1, List.length_map]
    omega
  rw [if_neg hlen2]
  unfold utf8Bytes
  rw [hb.2, List.map_take]

/-- C9: two spellings of one string of at least six hexadecimal digits, differing only in
letter case and in inserted separators `:`, `-`, `.`, have the same normal form, the
first six digits in upper case, and so resolve to the same entry of every vendor table
with every fallback. -/
theorem norm_spelling_invariant (env : Env) (db : DB) (fallback : String)
    (h s1 s2 : String) (hhex : h.data.all isHexDigit = true) (hlen : 6 ≤ h.data.length)
    (h1 : isVariantOf s1.data h.data = true) (h2 : isVariantOf s2.data h.data = true) :
    norm env s1 = utf8Bytes ((h.data.take 6).map Char.toUpper) ∧
    norm env s2 = utf8Bytes ((h.data.take 6).map Char.toUpper) ∧
    Lookup env db s1 fallback = Lookup env db s2 fallback := by
  have hh : ∀ c ∈ h.data, isHexDigit c = true := List.all_eq_true.1 hhex
  have n1 := norm_of_variant env s1 h.data hh hlen h1
  have n2 := norm_of_variant env s2 h.data hh hlen h2
  have hne : ∀ s : String, isVariantOf s.data h.data = true → s ≠ "" := by
    intro s hs he
    subst he
    simp only [isVariantOf, List.isEmpty_iff] at hs
    rw [hs] at hlen
    simp at hlen
  refine ⟨n1, n2, ?_⟩
  unfold Lookup
  rw [if_neg (hne s1 h1), if_neg (hne s2 h2)]
  simp only [n1, n2]

/-- C9 at the spellings of the specification: the three of them normalise to `001122`,
and the built-in table resolves them to the same vendor. -/
theorem norm_spelling_invariant_witness :
    norm Example.env "00:11:22:33:44:55" = utf8Bytes "001122".data ∧
    norm Example.env "0011.2233.4455" = utf8Bytes "001122".data ∧
    norm Example.env "00-11-22-33-44-55" = utf8Bytes "001122".data ∧
    Lookup Example.env (LoadDefault Example.env) "00:11:22:33:44:55" "" =
      Lookup Example.env (LoadDefault Example.env) "0011.2233.4455" "" ∧
    Lookup Example.env (LoadDefault Example.env) "0011.2233.4455" "" =
      Lookup Example.env (LoadDefault Example.env) "00-11-22-33-44-55" "" ∧
    Lookup Example.env (LoadDefault Example.env) "00:11:22:33:44:55" "" = "AcmeCorp" :=
  have a := norm_spelling_invariant Example.env (LoadDefault Example.env) ""
    "001122334455" "00:11:22:33:44:55" "0011.2233.4455"
    (by decide) (by decide) (by decide) (by decide)
  have b := norm_spelling_invariant Example.env (LoadDefault Example.env) ""
    "001122334455" "0011.2233.4455" "00-11-22-33-44-55"
    (by decide) (by decide) (by decide) (by decide)
  ⟨a.1, a.2.1, b.2.1, a.2.2, b.2.2, by decide⟩

end vendor
end Ndscan
namespace Ndscan
namespace ui

open scan

/-! ## Filling hardware addresses after the merge -/

/-- C8, evaluated at two scans of one address of which only the second reports the
hardware address, with a resolution map that knows this address: the two Rows have
different identity keys when `mergePorts` runs, the fill then gives the first Row the
hardware address of the second, and both printers emit two Rows with one and the same
identity key (network address, hardware address, hostname), in either run. -/
theorem fillMACs_after_merge_duplicates :
    WriteJSONWithMACMap Example.env Runtime.forward Example.twoScans (fun _ => none)
      true false (some Example.macMap) = [Example.rowMac, Example.rowMac] ∧
    PrintTableWithMACMap Example.env Runtime.forward Example.twoScans
      true (some Example.macMap) = [Example.rowMac, Example.rowMac] ∧
    WriteJSONWithMACMap Example.env Runtime.backward Example.twoScans (fun _ => none)
      true false (some Example.macMap) = [Example.rowMac, Example.rowMac] ∧
    PrintTableWithMACMap Example.env Runtime.backward Example.twoScans
      true (some Example.macMap) = [Example.rowMac, Example.rowMac] ∧
    (flatten Example.env Runtime.forward Example.twoScans).map key =
      ["192.168.1.5||", "192.168.1.5|00:11:22:33:44:55|"] := by
  decide

/-! ## The Row of a parsed host -/

/-- C10: the Row built from a parsed host has one port label per port whose state is
`open`, in the order of the record, and none for other ports; a label is
`<port>/<protocol> <service-name>`, followed by a space and the product iff the product
is non-empty.  The hostname of the Row is the first hostname of the record, or empty, and
the up flag is true iff the status state is `up`.  These Rows, for the hosts of every
result that has no error, some output and a successful parse, are what `flatten` hands
to `mergePorts`. -/
theorem hostRow_fields (h : Host) :
    (hostRow h).Ports =
      (h.Ports.List.filter (fun p => p.State.State = "open")).map (fun p =>
        if p.Service.Product ≠ "" then
          toString p.PortID ++ "/" ++ p.Protocol ++ " " ++ p.Service.Name ++ " " ++
            p.Service.Product
        else toString p.PortID ++ "/" ++ p.Protocol ++ " " ++ p.Service.Name) ∧
    (hostRow h).Host =
      (match h.Hostnames.Names with
       | n :: _ => n.Name
       | [] => "") ∧
    ((hostRow h).Up = true ↔ h.Status.State = "up") ∧
    (∀ (env : Env) (rt : Runtime) (res : List HostResult),
      flatten env rt res = mergePorts rt (res.flatMap (fun r =>
        if r.Err ≠ none ∨ r.XMLBytes = "" then []
        else
          match ParseOne env r.XMLBytes with
          | .ok nr => nr.Hosts.map hostRow
          | .error _ => []))) ∧
    portLabel ⟨"tcp", 22, ⟨"open"⟩, ⟨"ssh", "OpenSSH", "8.9"⟩⟩ =
      "22/tcp ssh OpenSSH" ∧
    portLabel ⟨"tcp", 80, ⟨"open"⟩, ⟨"http", "", ""⟩⟩ = "80/tcp http" := by
  refine ⟨?_, hostRow_Host h, ?_, ?_, by decide, by decide⟩
  · rw [hostRow_Ports]
    rfl
  · rw [hostRow_Up]
    simp
  · intro env rt res
    unfold flatten
    simp only [foldl_flattenStep, List.nil_append]

end ui
end Ndscan
namespace Ndscan
namespace ui

/-! ## The identity key as a string -/

theorem append_sep_inj (c : Char) : ∀ (a b x y : List Char), c ∉ a → c ∉ b →
    a ++ c :: x = b ++ c :: y → a = b ∧ x = y
  | [], [], x, y, _, _, h => by
    simp only [List.nil_append, List.cons.injEq, true_and] at h
    exact ⟨rfl, h⟩
  | [], e :: b, x, y, _, hb, h => by
    simp only [List.nil_append, List.cons_append, List.cons.injEq] at h
    exact absurd (h.1 ▸ List.mem_cons_self _ _) hb
  | d :: a, [], x, y, ha, _, h => by
    simp only [List.nil_append, List.cons_append, List.cons.injEq] at h
    exact absurd (h.1 ▸ List.mem_cons_self _ _) ha
  | d :: a, e :: b, x, y, ha, hb, h => by
    simp only [List.cons_append, List.cons.injEq] at h
    have ih := append_sep_inj c a b x y (fun hm => ha (List.mem_cons_of_mem _ hm))
      (fun hm => hb (List.mem_cons_of_mem _ hm)) h.2
    exact ⟨by rw [h.1, ih.1], ih.2⟩

theorem key_data (r : Row) :
    (key r).data = r.IP.data ++ '|' :: (r.MAC.data ++ '|' :: r.Host.data) := by
  simp [key, String.data_append]

/-- The key determines the three fields when neither address contains the separator. -/
theorem key_inj_of_no_bar {r1 r2 : Row}
    (h1 : '|' ∉ r1.IP.data) (h2 : '|' ∉ r1.MAC.data)
    (h3 : '|' ∉ r2.IP.data) (h4 : '|' ∉ r2.MAC.data) (hk : key r1 = key r2) :
    r1.IP = r2.IP ∧ r1.MAC = r2.MAC ∧ r1.Host = r2.Host := by
  have hd : (key r1).data = (key r2).data := by rw [hk]
  rw [key_data, key_data] at hd
  obtain ⟨hip, hrest⟩ := append_sep_inj '|' _ _ _ _ h1 h3 hd
  obtain ⟨hmac, hhost⟩ := append_sep_inj '|' _ _ _ _ h2 h4 hrest
  exact ⟨String.ext hip, String.ext hmac, String.ext hhost⟩

theorem key_eq_of_fields {r1 r2 : Row}
    (h : r1.IP = r2.IP ∧ r1.MAC = r2.MAC ∧ r1.Host = r2.Host) : key r1 = key r2 := by
  simp only [key, h.1, h.2.1, h.2.2]

/-- Two rows with different keys are both kept. -/
theorem mergePorts_pair_apart {rt : Runtime} (hrt : rt.Lawful) {a b : Row}
    (h : key a ≠ key b) : (mergePorts rt [a, b]).Perm [a, b] := by
  have hp := mergePorts_perm hrt [a, b]
  have hm : [a, b].foldl mergeStep [] = [(key a, a), (key b, b)] := by
    simp [mergeStep, mapGet, mapSet, h]
  rw [hm] at hp
  simpa using hp

/-- Two rows with one key are merged into the first, with both port lists. -/
theorem mergePorts_pair_merged {rt : Runtime} (hrt : rt.Lawful) {a b : Row}
    (h : key a = key b) : mergePorts rt [a, b] = [{ a with Ports := a.Ports ++ b.Ports }] := by
  have hp := mergePorts_perm hrt [a, b]
  have hm : [a, b].foldl mergeStep [] =
      [(key b, { a with Ports := a.Ports ++ b.Ports })] := by
    simp [mergeStep, mapGet, mapSet, h]
  rw [hm] at hp
  simpa using hp

/-- C11, the claim as stated fails: the key is not injective on the three fields when a
hardware address contains the separator.  The two rows below differ in hardware address
and hostname, have the same key, and `mergePorts` merges them into one Row. -/
theorem key_collision_counterexample :
    key ⟨"10.0.0.1", "aa|bb", "", "h", true, ["22/tcp ssh"]⟩ = "10.0.0.1|aa|bb|h" ∧
    key ⟨"10.0.0.1", "aa", "", "bb|h", true, ["80/tcp http"]⟩ = "10.0.0.1|aa|bb|h" ∧
    ("aa|bb" : String) ≠ "aa" ∧ ("h" : String) ≠ "bb|h" ∧
    mergePorts Runtime.forward
      [⟨"10.0.0.1", "aa|bb", "", "h", true, ["22/tcp ssh"]⟩,
       ⟨"10.0.0.1", "aa", "", "bb|h", true, ["80/tcp http"]⟩] =
      [⟨"10.0.0.1", "aa|bb", "", "h", true, ["22/tcp ssh", "80/tcp http"]⟩] ∧
    mergePorts Runtime.backward
      [⟨"10.0.0.1", "aa|bb", "", "h", true, ["22/tcp ssh"]⟩,
       ⟨"10.0.0.1", "aa", "", "bb|h", true, ["80/tcp http"]⟩] =
      [⟨"10.0.0.1", "aa|bb", "", "h", true, ["22/tcp ssh", "80/tcp http"]⟩] := by
  decide

/-- C11 as amended: for two Rows whose network and hardware addresses contain no `|`
(the hostname may contain it), the keys are equal iff the Rows agree on network address,
hardware address and hostname; `mergePorts` merges the two only in that case and keeps
both otherwise.  In any input whose addresses contain no `|`, the ports of an output Row
are those of exactly the input Rows with its three fields, in input order. -/
theorem key_injective_without_bar (rt : Runtime) (hrt : rt.Lawful) (r1 r2 : Row)
    (h1 : '|' ∉ r1.IP.data) (h2 : '|' ∉ r1.MAC.data)
    (h3 : '|' ∉ r2.IP.data) (h4 : '|' ∉ r2.MAC.data) :
    (key r1 = key r2 ↔ r1.IP = r2.IP ∧ r1.MAC = r2.MAC ∧ r1.Host = r2.Host) ∧
    (r1.IP = r2.IP ∧ r1.MAC = r2.MAC ∧ r1.Host = r2.Host →
      mergePorts rt [r1, r2] = [{ r1 with Ports := r1.Ports ++ r2.Ports }]) ∧
    (¬ (r1.IP = r2.IP ∧ r1.MAC = r2.MAC ∧ r1.Host = r2.Host) →
      (mergePorts rt [r1, r2]).Perm [r1, r2]) ∧
    (∀ rows : List Row, (∀ x ∈ rows, '|' ∉ x.IP.data ∧ '|' ∉ x.MAC.data) →
      ∀ r ∈ mergePorts rt rows,
        r.Ports = (rows.filter (fun x =>
          decide (x.IP = r.IP ∧ x.MAC = r.MAC ∧ x.Host = r.Host))).flatMap Row.Ports) := by
  have hiff : key r1 = key r2 ↔ r1.IP = r2.IP ∧ r1.MAC = r2.MAC ∧ r1.Host = r2.Host :=
    ⟨key_inj_of_no_bar h1 h2 h3 h4, key_eq_of_fields⟩
  refine ⟨hiff, ?_, ?_, ?_⟩
  · intro h
    exact mergePorts_pair_merged hrt (hiff.2 h)
  · intro h
    exact mergePorts_pair_apart hrt (fun hk => h (hiff.1 hk))
  · intro rows hrows r hr
    have hinv := foldl_mergeStep_inv rows
    rcases List.mem_map.1 ((mergePorts_perm hrt rows).mem_iff.1 hr) with ⟨e, he, rfl⟩
    have hm := hinv.merged e he
    have hk := mergedOf_key hm
    rw [← hk] at hm
    unfold mergedOf at hm
    cases hf : rows.find? (fun y => decide (key y = key e.2)) with
    | none => simp [hf] at hm
    | some r0 =>
      simp only [hf, Option.some.injEq] at hm
      have hr0 := List.mem_of_find?_eq_some hf
      have hbar := hrows r0 hr0
      have hIP : e.2.IP = r0.IP := by rw [← hm]
      have hMAC : e.2.MAC = r0.MAC := by rw [← hm]
      have hfil : rows.filter (fun x =>
          decide (x.IP = e.2.IP ∧ x.MAC = e.2.MAC ∧ x.Host = e.2.Host)) =
          rows.filter (fun y => decide (key y = key e.2)) := by
        apply List.filter_congr
        intro x hx
        have hxb := hrows x hx
        have : (x.IP = e.2.IP ∧ x.MAC = e.2.MAC ∧ x.Host = e.2.Host) ↔ key x = key e.2 :=
          ⟨key_eq_of_fields,
            key_inj_of_no_bar hxb.1 hxb.2 (hIP ▸ hbar.1) (hMAC ▸ hbar.2)⟩
        simp only [this]
      rw [hfil]
      conv_lhs => rw [← hm]

/-- C11 as amended, at two scans of one host whose hostname contains the separator. -/
theorem key_injective_without_bar_witness :
    Runtime.forward.Lawful ∧
    mergePorts Runtime.forward
      [⟨"10.0.0.1", "aa", "", "bb|h", true, ["22/tcp ssh"]⟩,
       ⟨"10.0.0.1", "aa", "", "bb|h", true, ["80/tcp http"]⟩] =
      [⟨"10.0.0.1", "aa", "", "bb|h", true, ["22/tcp ssh", "80/tcp http"]⟩] ∧
    (mergePorts Runtime.forward
      [⟨"10.0.0.1", "aa", "", "bb|h", true, ["22/tcp ssh"]⟩,
       ⟨"10.0.0.1", "aa", "", "bb", true, ["80/tcp http"]⟩]).Perm
      [⟨"10.0.0.1", "aa", "", "bb|h", true, ["22/tcp ssh"]⟩,
       ⟨"10.0.0.1", "aa", "", "bb", true, ["80/tcp http"]⟩] :=
  ⟨Runtime.forward_lawful,
    (key_injective_without_bar Runtime.forward Runtime.forward_lawful
      ⟨"10.0.0.1", "aa", "", "bb|h", true, ["22/tcp ssh"]⟩
      ⟨"10.0.0.1", "aa", "", "bb|h", true, ["80/tcp http"]⟩
      (by decide) (by decide) (by decide) (by decide)).2.1 ⟨rfl, rfl, rfl⟩,
    (key_injective_without_bar Runtime.forward Runtime.forward_lawful
      ⟨"10.0.0.1", "aa", "", "bb|h", true, ["22/tcp ssh"]⟩
      ⟨"10.0.0.1", "aa", "", "bb", true, ["80/tcp http"]⟩
      (by decide) (by decide) (by decide) (by decide)).2.2.1 (by decide)⟩

end ui
end Ndscan
